import Mathlib

/-!
Verification of the exercise-analytics core of Hevy-Insights.

The embedding follows the `exercises` computed pass of the Exercises view
(src/unnamed/part_001) and the helpers it calls in
src/frontend/src/utils/exerciseTypeDetector.ts.

Modelling conventions:
* JS numbers that the code coerces with `Number(x) ?? 0` / `Number(x) || 0`
  are modelled as `ℚ`; a missing or non-numeric field is 0 (everywhere these
  values are used the code either coerces with `|| 0` or compares with `> 0`,
  and NaN behaves exactly like 0 under both).
* Day keys are `ℤ`, the number of local calendar days since the epoch; the
  source keys buckets by the local-date string `YYYY-MM-DD`, whose
  lexicographic order agrees with this numeric order, and
  `new Date(dayKey).getTime()` is UTC midnight of that day, i.e.
  `day * 86400000` milliseconds.  The local-day normalizer itself
  (`start_time` seconds to day key) is kept as an explicit function
  parameter `dk`; no claim below depends on its definition.
* JS objects used as maps (`byDay`, `prMap`, the exercise registry) are
  association lists in insertion order; for the string keys the code uses
  (date strings, PR-type strings, title slugs) `Object.keys`/`Object.values`
  enumerate exactly in insertion order.
* `Array.prototype.sort` (ES2019: stable) with a numeric comparator is a
  stable insertion sort by the relation `comparator a b ≤ 0`.
* Division of an empty list's sum by its length is NaN in JS, and every
  comparison against NaN is false; such means are modelled as `Option ℚ`
  with `none` for the NaN case, and the branches that consume them spell
  out the all-comparisons-false behaviour.
-/

namespace HevyInsights

/-! ## Raw data model (the session objects the store hands to the view) -/

/-- One personal-record annotation on a set: `p.type` and `Number(p.value) || 0`. -/
structure PRRaw where
  type : String
  value : ℚ
deriving DecidableEq, Repr

/-- One recorded set, with its numeric fields already coerced the way the
`exercises` pass coerces them (`Number(s.weight_kg ?? s.weight ?? 0)` etc.). -/
structure RawSet where
  weight : ℚ
  reps : ℚ
  distance : ℚ
  duration : ℚ
  prs : List PRRaw := []
deriving DecidableEq, Repr

/-- One exercise entry of a session: the display title, the optional
localized titles, the optional `exercise_type` tag and the sets. -/
structure RawExercise where
  title : String
  deTitle : Option String := none
  esTitle : Option String := none
  exTag : Option String := none
  sets : List RawSet := []
deriving DecidableEq, Repr

/-- One workout session: `w.start_time || 0` in epoch seconds plus its exercises. -/
structure Workout where
  startTime : ℤ := 0
  exercises : List RawExercise := []
deriving DecidableEq, Repr

/-! ## Title localization and the exercise key (getLocalizedTitle, slug) -/

/-- JS truthiness of an optional string: present and non-empty. -/
def truthyStr (o : Option String) : Bool :=
  match o with
  | some s => s ≠ ""
  | none => false

/-- getLocalizedTitle: the de/es title when the locale selects it and it is
truthy, else `exercise.title || "Unknown Exercise"`. -/
def localizedTitle (locale : String) (ex : RawExercise) : String :=
  if locale = "de" ∧ truthyStr ex.deTitle then ex.deTitle.getD ""
  else if locale = "es" ∧ truthyStr ex.esTitle then ex.esTitle.getD ""
  else if ex.title = "" then "Unknown Exercise" else ex.title

/-- A character the slug keeps: the regex class [a-z0-9] of the id
computation (applied after toLowerCase). -/
def isKeyChar (c : Char) : Bool :=
  (decide (Char.ofNat 97 ≤ c) && decide (c ≤ Char.ofNat 122)) ||
  (decide (Char.ofNat 48 ≤ c) && decide (c ≤ Char.ofNat 57))

/-- The replace of every maximal run of characters outside [a-z0-9] by one
dash, i.e. `.replace(/[^a-z0-9]+/g, "-")`: the flag records whether the
previous character belonged to such a run. -/
def collapseRuns : List Char → Bool → List Char
  | [], _ => []
  | c :: cs, inRun =>
      if isKeyChar c then c :: collapseRuns cs false
      else if inRun then collapseRuns cs true
      else Char.ofNat 45 :: collapseRuns cs true

/-- Strip leading and trailing dashes: `.replace(/^-+|-+$/g, "")`. -/
def trimDashes (l : List Char) : List Char :=
  ((l.dropWhile (· = Char.ofNat 45)).reverse.dropWhile (· = Char.ofNat 45)).reverse

/-- The exercise id: title lowercased, non-alphanumeric runs collapsed to a
dash, leading and trailing dashes stripped. -/
def slug (title : String) : String :=
  String.mk (trimDashes (collapseRuns (title.data.map Char.toLower) false))

/-- The ExerciseKey of an exercise entry under the active locale. -/
def exKeyOf (locale : String) (ex : RawExercise) : String :=
  slug (localizedTitle locale ex)

/-! ## The grouping pass: per-exercise set and PR lists -/

/-- One set as the pass pushes it into an entry: tagged with the session's
day key, fields under the keys `weight`, `reps`, `distance_km`,
`duration_seconds`. -/
structure TSet where
  day : ℤ
  weight : ℚ
  reps : ℚ
  distance : ℚ
  duration : ℚ
deriving DecidableEq, Repr

/-- One PR as the pass pushes it: `String(p.type || "")`, the value, the day. -/
structure PRTagged where
  type : String
  value : ℚ
  day : ℤ
deriving DecidableEq, Repr

/-- `String(p.type || "")` is the type itself (only the empty string is falsy). -/
def prTag (p : PRRaw) (d : ℤ) : PRTagged := ⟨p.type, p.value, d⟩

/-- The traversal order of (key, day, exercise entry) triples: sessions in
order, each session's exercise entries in order.  `dk` is the local day-key
normalizer applied to `w.start_time || 0`. -/
def occurrences (dk : ℤ → ℤ) (locale : String) (ws : List Workout) :
    List (String × ℤ × RawExercise) :=
  ws.flatMap (fun w => w.exercises.map (fun ex => (exKeyOf locale ex, dk w.startTime, ex)))

/-- All sets pushed into the entry of key `k`, in traversal order. -/
def entrySets (dk : ℤ → ℤ) (locale : String) (ws : List Workout) (k : String) :
    List TSet :=
  ((occurrences dk locale ws).filter (fun o => o.1 = k)).flatMap
    (fun o => o.2.2.sets.map (fun s => ⟨o.2.1, s.weight, s.reps, s.distance, s.duration⟩))

/-- All PRs pushed into the entry of key `k`, in traversal order. -/
def entryPRs (dk : ℤ → ℤ) (locale : String) (ws : List Workout) (k : String) :
    List PRTagged :=
  ((occurrences dk locale ws).filter (fun o => o.1 = k)).flatMap
    (fun o => o.2.2.sets.flatMap (fun s => s.prs.map (fun p => prTag p o.2.1)))

/-- The first occurrence creating the entry of key `k` (its title and
`exercise_type` are the ones the entry keeps). -/
def firstOcc (dk : ℤ → ℤ) (locale : String) (ws : List Workout) (k : String) :
    Option (String × ℤ × RawExercise) :=
  ((occurrences dk locale ws).filter (fun o => o.1 = k)).head?

/-- The distinct exercise keys in first-insertion order (`Object.values(map)`
for the slug keys the pass builds). -/
def keysInOrder (dk : ℤ → ℤ) (locale : String) (ws : List Workout) : List String :=
  ((occurrences dk locale ws).map (fun o => o.1)).foldl
    (fun acc k => if k ∈ acc then acc else acc ++ [k]) []

/-! ## The daily metric aggregator (the byDay fold) -/

/-- One calendar day's aggregate for one exercise. -/
structure DayAgg where
  maxWeight : ℚ := 0
  repsAtMax : ℚ := 0
  totalReps : ℚ := 0
  volume : ℚ := 0
  setCount : ℕ := 0
  avgVolumePerSet : ℚ := 0
  totalDistance : ℚ := 0
  totalDuration : ℚ := 0
  maxDistance : ℚ := 0
  maxDuration : ℚ := 0
deriving DecidableEq, Repr

/-- The fresh bucket created on first sight of a day. -/
def emptyAgg : DayAgg := {}

/-- Folding one set into its day's bucket, exactly in the source's order:
volume, set count and total reps accumulate; `maxWeight`/`repsAtMax` replace
on a strictly greater weight and keep the larger rep count on an equal one;
the cardio fields accumulate additively and track running maxima. -/
def foldSet (cur : DayAgg) (s : TSet) : DayAgg :=
  let cur1 : DayAgg :=
    { cur with
      volume := cur.volume + s.weight * s.reps
      setCount := cur.setCount + 1
      totalReps := cur.totalReps + s.reps }
  let cur2 : DayAgg :=
    if s.weight > cur1.maxWeight then
      { cur1 with maxWeight := s.weight, repsAtMax := s.reps }
    else if s.weight = cur1.maxWeight then
      { cur1 with repsAtMax := max cur1.repsAtMax s.reps }
    else cur1
  { cur2 with
    totalDistance := cur2.totalDistance + s.distance
    totalDuration := cur2.totalDuration + s.duration
    maxDistance := max cur2.maxDistance s.distance
    maxDuration := max cur2.maxDuration s.duration }

/-- Update the association list at day `d` with `f`, creating the bucket
with `f emptyAgg` when absent; a fresh key goes last (JS object insertion
order), an existing one keeps its place. -/
def updateAssoc (m : List (ℤ × DayAgg)) (d : ℤ) (f : DayAgg → DayAgg) :
    List (ℤ × DayAgg) :=
  match m with
  | [] => [(d, f emptyAgg)]
  | (d0, a) :: rest =>
      if d0 = d then (d0, f a) :: rest else (d0, a) :: updateAssoc rest d f

/-- Association-list lookup (the read `byDay[d]`). -/
def lookupA (m : List (ℤ × DayAgg)) (d : ℤ) : Option DayAgg :=
  match m with
  | [] => none
  | (d0, a) :: rest => if d0 = d then some a else lookupA rest d

/-- The byDay map before the average pass: one fold over all of the
exercise's sets. -/
def byDayRaw (sets : List TSet) : List (ℤ × DayAgg) :=
  sets.foldl (fun m s => updateAssoc m s.day (fun a => foldSet a s)) []

/-- The average-volume pass: `avgVolumePerSet = setCount > 0 ? volume / setCount : 0`. -/
def setAvg (a : DayAgg) : DayAgg :=
  { a with avgVolumePerSet := if a.setCount > 0 then a.volume / (a.setCount : ℚ) else 0 }

/-- The finished byDay map of an exercise. -/
def byDayOf (sets : List TSet) : List (ℤ × DayAgg) :=
  (byDayRaw sets).map (fun p => (p.1, setAvg p.2))

/-! ## The exercise-kind classifier (exerciseTypeDetector.ts) -/

/-- A set as `detectExerciseType` reads it: the four optional fields
`weight_kg`, `reps`, `distance_km`, `duration_seconds`.  The records the
`exercises` pass assembles store the weight under the key `weight`, so at
that call site `weight_kg` is absent (`none`). -/
structure DetSet where
  weightKg : Option ℚ
  reps : Option ℚ
  distance : Option ℚ
  duration : Option ℚ
deriving DecidableEq, Repr

/-- The not-null, not-undefined, positive test of the detector. -/
def hasVal (o : Option ℚ) : Bool :=
  match o with
  | some v => v > 0
  | none => false

/-- detectExerciseType: count strength-contributing and cardio-contributing
sets and classify by the 0.7 majority ratio. -/
def detectExerciseType (sets : List DetSet) : String :=
  if sets = [] then "unknown"
  else
    let strengthSets := (sets.filter (fun s => hasVal s.weightKg || hasVal s.reps)).length
    let cardioSets := (sets.filter (fun s => hasVal s.distance || hasVal s.duration)).length
    let total := strengthSets + cardioSets
    if total = 0 then "unknown"
    else if (strengthSets : ℚ) / (total : ℚ) > 7 / 10 then "strength"
    else if (cardioSets : ℚ) / (total : ℚ) > 7 / 10 then "cardio"
    else if strengthSets > 0 ∧ cardioSets > 0 then "mixed"
    else "unknown"

/-- How the `exercises` pass hands a pushed set record to the detector: the
detector's `weight_kg` field is absent on these records. -/
def detView (s : TSet) : DetSet :=
  ⟨none, some s.reps, some s.distance, some s.duration⟩

/-- isBodyweightExercise: some set has positive reps (read through
`set.reps ?? 0`) and no set has positive weight (read through
`set.weight ?? 0`, the key the pass stores); false on an empty set list. -/
def isBodyweightExercise (sets : List TSet) : Bool :=
  if sets = [] then false
  else (sets.any (fun s => s.reps > 0)) && !(sets.any (fun s => s.weight > 0))

/-- The flag the pass assigns:
`ex.exercise_type === "reps_only" || isBodyweightExercise(...)`, where the
stored tag is `ex.exercise_type || null` of the first occurrence. -/
def bodyweightFlag (exTag : Option String) (sets : List TSet) : Bool :=
  exTag = some "reps_only" || isBodyweightExercise sets

/-- The `exercise_type || null` normalization at entry creation. -/
def storedTag (o : Option String) : Option String :=
  match o with
  | some s => if s = "" then none else some s
  | none => none

/-! ## isAssistedExercise -/

/-- ASCII lowercasing of a title, the part of `toLowerCase` the assisted
keywords exercise. -/
def lowerChars (s : String) : List Char := s.data.map Char.toLower

/-- Substring test (`title.includes(keyword)`). -/
def containsSub (needle hay : List Char) : Bool :=
  match hay with
  | [] => needle = []
  | _ :: t => needle.isPrefixOf hay || containsSub needle t

/-- The assistance vocabulary of isAssistedExercise (English and German). -/
def assistedKeywords : List (List Char) :=
  ["assisted".data, "supported".data, "unterstützt".data]

/-- isAssistedExercise: the explicit `bodyweight_assisted_reps` tag, or an
assistance keyword inside the lowercased title. -/
def isAssisted (exTag : Option String) (title : String) : Bool :=
  exTag = some "bodyweight_assisted_reps" ||
    assistedKeywords.any (fun k => containsSub k (lowerChars title))

/-! ## The top-set ranker -/

/-- Total work of a set, `(Number(a.weight)||0) * (Number(a.reps)||0)`. -/
def work (s : TSet) : ℚ := s.weight * s.reps

/-- The cardio comparator: by distance descending when both compared sets
have positive distance, otherwise by duration descending. -/
def cmpCardio (a b : TSet) : ℚ :=
  if a.distance > 0 ∧ b.distance > 0 then b.distance - a.distance
  else b.duration - a.duration

/-- The strength comparator: total work descending, ascending for an
assisted exercise. -/
def cmpStrength (assisted : Bool) (a b : TSet) : ℚ :=
  if assisted then work a - work b else work b - work a

/-- The comparator the pass picks for an exercise. -/
def cmpFor (kind : String) (assisted : Bool) : TSet → TSet → ℚ :=
  if kind = "cardio" then cmpCardio else cmpStrength assisted

/-- Keeps-before relation of a JS comparator: `a` may stay before `b` when
`comparator(a, b) ≤ 0`. -/
def leC (cmp : TSet → TSet → ℚ) (a b : TSet) : Bool :=
  decide (cmp a b ≤ 0)

/-- Stable insertion into a list sorted by `le`. -/
def insertLe {α : Type} (le : α → α → Bool) (x : α) : List α → List α
  | [] => [x]
  | y :: ys => if le x y then x :: y :: ys else y :: insertLe le x ys

/-- Stable insertion sort: the result of ES2019 `Array.prototype.sort` for a
consistent comparator (and, on the two-element lists used in concrete
examples below, of any correct sort). -/
def sortLe {α : Type} (le : α → α → Bool) : List α → List α
  | [] => []
  | x :: xs => insertLe le x (sortLe le xs)

/-- The top-set list: sets sorted by the kind- and assistance-selected
comparator, truncated to 3. -/
def topSetsOf (kind : String) (assisted : Bool) (sets : List TSet) : List TSet :=
  (sortLe (leC (cmpFor kind assisted)) sets).take 3

/-! ## The PR deduplicator -/

/-- One step of the prMap fold: a fresh type is appended (a new object key
enumerates last), an existing one is replaced in place when the new value is
strictly greater (`Number(pr.value) || 0` on both sides is the stored `ℚ`). -/
def upsertPR (m : List PRTagged) (pr : PRTagged) : List PRTagged :=
  match m with
  | [] => [pr]
  | cur :: rest =>
      if cur.type = pr.type then
        (if pr.value > cur.value then pr :: rest else cur :: rest)
      else cur :: upsertPR rest pr

/-- prDistinct: `Object.values` of the prMap fold over the exercise's PR
list (the key is `pr.type || ""`, the type string itself). -/
def dedupPRs (prs : List PRTagged) : List PRTagged :=
  prs.foldl upsertPR []

/-! ## The trend classifier (analyzeStrengthProgress) -/

/-- The six named outcomes; inactive carries the day gap just as the message
payload does, insufficient the count found and the threshold. -/
inductive Insight where
  | inactive (gap : ℤ)
  | insufficient (found needed : ℕ)
  | plateau
  | gaining
  | losing
  | maintaining
deriving DecidableEq, Repr

/-- The evaluation context: `Date.now()` in milliseconds and the configured
session threshold `store.plateauDetectionSessions` (the spec's `N`, an
integer ≥ 1). -/
structure Config where
  now : ℤ
  minSessions : ℕ
deriving DecidableEq, Repr

/-- The day gap: `Math.floor((Date.now() - new Date(lastDay).getTime()) / 86400000)`;
the day-key string parses to UTC midnight of that calendar day. -/
def daysSince (now d : ℤ) : ℤ := (now - d * 86400000).fdiv 86400000

/-- Ascending order on day keys (`Object.keys(ex.byDay).sort()`:
lexicographic on `YYYY-MM-DD` strings is chronological). -/
def sortedDays (byDay : List (ℤ × DayAgg)) : List ℤ :=
  sortLe (fun a b => decide (a ≤ b)) (byDay.map (fun p => p.1))

/-- `days.slice(-n)`: the last `n` entries; `slice(-0)` is the whole list. -/
def lastSlice (n : ℕ) (days : List ℤ) : List ℤ :=
  if n = 0 then days else days.drop (days.length - n)

/-- The bucket reads `ex.byDay[d]?.field || 0`: a missing day reads as the
all-zero bucket. -/
def aggAt (byDay : List (ℤ × DayAgg)) (d : ℤ) : DayAgg :=
  (lookupA byDay d).getD emptyAgg

/-- `Math.max(...)` of a list (only applied to nonempty lists below). -/
def maxQ : List ℚ → ℚ
  | [] => 0
  | x :: xs => xs.foldl max x

/-- `Math.min(...)` of a list (only applied to nonempty lists below). -/
def minQ : List ℚ → ℚ
  | [] => 0
  | x :: xs => xs.foldl min x

/-- The mean `list.reduce((a,b) => a+b, 0) / list.length` of a nonempty list. -/
def meanOf (l : List ℚ) : ℚ := l.sum / (l.length : ℚ)

/-- The same mean as the code computes it on a possibly empty list: `none`
is the NaN an empty list produces, and every comparison against it is false. -/
def meanQ (l : List ℚ) : Option ℚ :=
  if l = [] then none else some (meanOf l)

/-- The per-day aggregates of a day window (the `sessions` array of both
branches). -/
def sessionAggs (byDay : List (ℤ × DayAgg)) (days : List ℤ) : List DayAgg :=
  days.map (fun d => aggAt byDay d)

/-- The positive per-day max distances of the window (the `distances`
array of the cardio branch). -/
def windowDistances (byDay : List (ℤ × DayAgg)) (lastNDays : List ℤ) : List ℚ :=
  ((sessionAggs byDay lastNDays).map (fun s => s.maxDistance)).filter (fun q => q > 0)

/-- The positive per-day total durations of the window (the `durations`
array of the cardio branch). -/
def windowDurations (byDay : List (ℤ × DayAgg)) (lastNDays : List ℤ) : List ℚ :=
  ((sessionAggs byDay lastNDays).map (fun s => s.totalDuration)).filter (fun q => q > 0)

/-- The series the cardio branch analyses: the positive max distances when
any exist across the window, else the positive total durations. -/
def cardioMetric (byDay : List (ℤ × DayAgg)) (lastNDays : List ℤ) : List ℚ :=
  if windowDistances byDay lastNDays ≠ [] then windowDistances byDay lastNDays
  else windowDurations byDay lastNDays

/-- The cardio branch of analyzeStrengthProgress, on the last-N day window.
`none` is the null return for a window with no positive distance and no
positive duration.  When the second half of the chosen series is empty its
JS mean is NaN, both threshold comparisons are false, and the result is
maintaining; the same holds for an empty first half (reachable only when the
window has at most one day, where the plateau test already fired). -/
def cardioBranch (byDay : List (ℤ × DayAgg)) (lastNDays : List ℤ) : Option Insight :=
  let sessions := sessionAggs byDay lastNDays
  let distances := windowDistances byDay lastNDays
  let durations := windowDurations byDay lastNDays
  if distances = [] ∧ durations = [] then none
  else
    let metric := cardioMetric byDay lastNDays
    let metricRange := maxQ metric - minQ metric
    let avgMetric := meanOf metric
    if metricRange ≤ avgMetric * (5 / 100) then some .plateau
    else
      let midpoint := sessions.length / 2
      let firstHalf := metric.take midpoint
      let secondHalf := metric.drop midpoint
      match meanQ firstHalf, meanQ secondHalf with
      | some firstAvg, some secondAvg =>
          let change := ((secondAvg - firstAvg) / firstAvg) * 100
          if change > 5 then some .gaining
          else if change < -5 then some .losing
          else some .maintaining
      | _, _ => some .maintaining

/-- The strength branch of analyzeStrengthProgress, on the last-N day
window.  An empty half (reachable only for a one-day window, where the
plateau test already fired) gives NaN means in JS, every comparison against
which is false, so the result is maintaining. -/
def strengthBranch (assisted : Bool) (byDay : List (ℤ × DayAgg))
    (lastNDays : List ℤ) : Insight :=
  let sessions := sessionAggs byDay lastNDays
  let weights := sessions.map (fun s => s.maxWeight)
  let reps := sessions.map (fun s => s.repsAtMax)
  let weightRange := maxQ weights - minQ weights
  let repsRange := maxQ reps - minQ reps
  if weightRange ≤ 1 / 2 ∧ repsRange ≤ 1 then .plateau
  else
    let midpoint := sessions.length / 2
    let firstHalf := sessions.take midpoint
    let secondHalf := sessions.drop midpoint
    match meanQ (firstHalf.map (fun s => s.maxWeight)),
        meanQ (secondHalf.map (fun s => s.maxWeight)),
        meanQ (firstHalf.map (fun s => s.repsAtMax)),
        meanQ (secondHalf.map (fun s => s.repsAtMax)) with
    | some fw, some sw, some fr, some sr =>
        let weightChange := sw - fw
        let repsChange := sr - fr
        let eff := if assisted then -weightChange else weightChange
        if eff > 2 ∨ (repsChange > 2 ∧ eff ≥ -(1 / 2)) then .gaining
        else if eff < -2 ∨ (repsChange < -2 ∧ eff ≤ 1 / 2) then .losing
        else .maintaining
    | _, _, _, _ => .maintaining

/-- analyzeStrengthProgress: null on an empty day list; inactive (with the
exact day gap) when the most recent day is more than 60 days old, checked
first; insufficient when fewer day buckets than the threshold exist; else
the cardio or strength branch on the last N day buckets. -/
def analyzeStrengthProgress (cfg : Config) (kind : String) (exTag : Option String)
    (title : String) (byDay : List (ℤ × DayAgg)) : Option Insight :=
  let days := sortedDays byDay
  match days.getLast? with
  | none => none
  | some lastDay =>
      let gap := daysSince cfg.now lastDay
      if 60 < gap then some (.inactive gap)
      else if days.length < cfg.minSessions then
        some (.insufficient days.length cfg.minSessions)
      else
        let lastNDays := lastSlice cfg.minSessions days
        if kind = "cardio" then cardioBranch byDay lastNDays
        else some (strengthBranch (isAssisted exTag title) byDay lastNDays)

/-! ## The assembled per-exercise record (the exercises computed pass) -/

/-- The per-exercise view model the pass emits. -/
structure ExRecord where
  key : String
  title : String
  exTag : Option String
  sets : List TSet
  prs : List PRTagged
  kind : String
  isBodyweight : Bool
  byDay : List (ℤ × DayAgg)
  topSets : List TSet
  prDistinct : List PRTagged
  insight : Option Insight
deriving DecidableEq, Repr

/-- Assemble the record of one exercise key. -/
def buildRecord (dk : ℤ → ℤ) (locale : String) (cfg : Config) (ws : List Workout)
    (k : String) : ExRecord :=
  let sets := entrySets dk locale ws k
  let occ := firstOcc dk locale ws k
  let title := (occ.map (fun o => localizedTitle locale o.2.2)).getD ""
  let exTag := storedTag ((occ.map (fun o => o.2.2.exTag)).getD none)
  let kind := detectExerciseType (sets.map detView)
  let byDay := byDayOf sets
  { key := k
    title := title
    exTag := exTag
    sets := sets
    prs := entryPRs dk locale ws k
    kind := kind
    isBodyweight := bodyweightFlag exTag sets
    byDay := byDay
    topSets := topSetsOf kind (isAssisted exTag title) sets
    prDistinct := dedupPRs (entryPRs dk locale ws k)
    insight := analyzeStrengthProgress cfg kind exTag title byDay }

/-- The full pass: one record per distinct exercise key, in first-insertion
order. -/
def exercisesPass (dk : ℤ → ℤ) (locale : String) (cfg : Config)
    (ws : List Workout) : List ExRecord :=
  (keysInOrder dk locale ws).map (buildRecord dk locale cfg ws)

/-- The standard day-key normalizer instance used by the concrete examples:
UTC days since the epoch (the claims never depend on the time zone). -/
def dkStd (t : ℤ) : ℤ := t.fdiv 86400

/-! ## Basic lemmas about the insertion sort -/

theorem length_insertLe {α : Type} (le : α → α → Bool) (x : α) (l : List α) :
    (insertLe le x l).length = l.length + 1 := by
  induction l with
  | nil => rfl
  | cons y ys ih =>
      simp only [insertLe]
      split
      · simp
      · simp [ih]

theorem length_sortLe {α : Type} (le : α → α → Bool) (l : List α) :
    (sortLe le l).length = l.length := by
  induction l with
  | nil => rfl
  | cons x xs ih => simp [sortLe, length_insertLe, ih]

theorem perm_insertLe {α : Type} (le : α → α → Bool) (x : α) (l : List α) :
    (insertLe le x l).Perm (x :: l) := by
  induction l with
  | nil => simp [insertLe]
  | cons y ys ih =>
      simp only [insertLe]
      split
      · exact List.Perm.refl _
      · exact (List.Perm.cons y ih).trans (List.Perm.swap x y ys)

theorem perm_sortLe {α : Type} (le : α → α → Bool) (l : List α) :
    (sortLe le l).Perm l := by
  induction l with
  | nil => exact List.Perm.refl _
  | cons x xs ih => exact (perm_insertLe le x (sortLe le xs)).trans (List.Perm.cons x ih)

theorem mem_sortLe {α : Type} (le : α → α → Bool) (x : α) (l : List α) :
    x ∈ sortLe le l ↔ x ∈ l :=
  (perm_sortLe le l).mem_iff

theorem chain_insertLe {α : Type} (le : α → α → Bool)
    (htot : ∀ a b, le a b = true ∨ le b a = true) (x : α) (l : List α)
    (hc : List.Chain' (fun a b => le a b = true) l) :
    List.Chain' (fun a b => le a b = true) (insertLe le x l) := by
  induction l with
  | nil => simp [insertLe]
  | cons y ys ih =>
      simp only [insertLe]
      split
      · rename_i hxy
        exact List.Chain'.cons hxy hc
      · rename_i hxy
        have hyx : le y x = true := by
          rcases htot x y with h | h
          · exact absurd h hxy
          · exact h
        have hys : List.Chain' (fun a b => le a b = true) ys := hc.tail
        have hins := ih hys
        cases ys with
        | nil => exact List.Chain'.cons hyx (by simp [insertLe])
        | cons z zs =>
            simp only [insertLe] at hins ⊢
            split
            · rename_i hxz
              exact List.Chain'.cons hyx (by simpa [insertLe, hxz] using hins)
            · rename_i hxz
              have hyz : le y z = true := (List.chain'_cons.mp hc).1
              simp only [insertLe, hxz] at hins
              exact List.Chain'.cons hyz hins


theorem chain_sortLe {α : Type} (le : α → α → Bool)
    (htot : ∀ a b, le a b = true ∨ le b a = true) (l : List α) :
    List.Chain' (fun a b => le a b = true) (sortLe le l) := by
  induction l with
  | nil => simp [sortLe]
  | cons x xs ih => exact chain_insertLe le htot x (sortLe le xs) ih

/-! ## Unfolding the trend classifier past the inactive and insufficient checks -/

theorem analyze_eq_branch (cfg : Config) (kind : String) (exTag : Option String)
    (title : String) (byDay : List (ℤ × DayAgg)) (d : ℤ)
    (hlast : (sortedDays byDay).getLast? = some d)
    (hgap : daysSince cfg.now d ≤ 60)
    (hcount : cfg.minSessions ≤ (sortedDays byDay).length) :
    analyzeStrengthProgress cfg kind exTag title byDay =
      if kind = "cardio" then
        cardioBranch byDay (lastSlice cfg.minSessions (sortedDays byDay))
      else
        some (strengthBranch (isAssisted exTag title) byDay
          (lastSlice cfg.minSessions (sortedDays byDay))) := by
  unfold analyzeStrengthProgress
  simp only []
  rw [show (sortedDays byDay).getLast? = some d from hlast]
  have h1 : ¬ (60 < daysSince cfg.now d) := not_lt.mpr hgap
  have h2 : ¬ ((sortedDays byDay).length < cfg.minSessions) := not_lt.mpr hcount
  simp [h1, h2]

/-- C1: an exercise with at least one day bucket whose most recent day
bucket lies more than 60 days (as the code measures the gap) before the
evaluation time is classified inactive, carrying the exact day gap,
whatever its kind, tag, title and bucket count -- in particular also when it
has fewer day buckets than the session threshold, so inactivity takes
precedence over insufficiency. -/
theorem C1_inactive_takes_precedence (cfg : Config) (kind : String)
    (exTag : Option String) (title : String) (byDay : List (ℤ × DayAgg)) (d : ℤ)
    (hlast : (sortedDays byDay).getLast? = some d)
    (hgap : 60 < daysSince cfg.now d) :
    analyzeStrengthProgress cfg kind exTag title byDay =
      some (.inactive (daysSince cfg.now d)) := by
  unfold analyzeStrengthProgress
  simp only []
  rw [show (sortedDays byDay).getLast? = some d from hlast]
  simp [hgap]

/-- C1 witness: an exercise with 2 day buckets (below the default threshold
of 5), the latest 90 days before now, is classified inactive with gap 90,
not insufficient. -/
theorem C1_witness :
    analyzeStrengthProgress ⟨90 * 86400000, 5⟩ "strength" none "Bench"
      [((0 : ℤ), emptyAgg), ((-3 : ℤ), emptyAgg)] = some (.inactive 90) :=
  C1_inactive_takes_precedence ⟨90 * 86400000, 5⟩ "strength" none "Bench"
    [((0 : ℤ), emptyAgg), ((-3 : ℤ), emptyAgg)] 0 (by decide) (by decide)


theorem meanQ_eq (l : List ℚ) (h : l ≠ []) : meanQ l = some (meanOf l) := by
  simp [meanQ, h]

/-- A window that fails the strength plateau test has at least two days. -/
theorem two_le_of_not_plateau (byDay : List (ℤ × DayAgg)) (lastNDays : List ℤ)
    (hne : lastNDays ≠ [])
    (hnp : ¬ (maxQ ((sessionAggs byDay lastNDays).map (fun s => s.maxWeight))
              - minQ ((sessionAggs byDay lastNDays).map (fun s => s.maxWeight)) ≤ 1 / 2 ∧
            maxQ ((sessionAggs byDay lastNDays).map (fun s => s.repsAtMax))
              - minQ ((sessionAggs byDay lastNDays).map (fun s => s.repsAtMax)) ≤ 1)) :
    2 ≤ lastNDays.length := by
  rcases lastNDays with _ | ⟨a, l⟩
  · exact absurd rfl hne
  · rcases l with _ | ⟨b, l⟩
    · exfalso
      apply hnp
      constructor
      · simp [sessionAggs, maxQ, minQ]
      · simp [sessionAggs, maxQ, minQ]
    · simp only [List.length_cons]
      omega

theorem strengthBranch_eq_plateau (assisted : Bool) (byDay : List (ℤ × DayAgg))
    (lastNDays : List ℤ)
    (hp : maxQ ((sessionAggs byDay lastNDays).map (fun s => s.maxWeight))
            - minQ ((sessionAggs byDay lastNDays).map (fun s => s.maxWeight)) ≤ 1 / 2 ∧
          maxQ ((sessionAggs byDay lastNDays).map (fun s => s.repsAtMax))
            - minQ ((sessionAggs byDay lastNDays).map (fun s => s.repsAtMax)) ≤ 1) :
    strengthBranch assisted byDay lastNDays = .plateau := by
  unfold strengthBranch
  simp only []
  rw [if_pos hp]

theorem strengthBranch_eq_not_plateau (assisted : Bool) (byDay : List (ℤ × DayAgg))
    (lastNDays : List ℤ) (h2 : 2 ≤ lastNDays.length)
    (hnp : ¬ (maxQ ((sessionAggs byDay lastNDays).map (fun s => s.maxWeight))
              - minQ ((sessionAggs byDay lastNDays).map (fun s => s.maxWeight)) ≤ 1 / 2 ∧
            maxQ ((sessionAggs byDay lastNDays).map (fun s => s.repsAtMax))
              - minQ ((sessionAggs byDay lastNDays).map (fun s => s.repsAtMax)) ≤ 1)) :
    strengthBranch assisted byDay lastNDays =
      (let sessions := sessionAggs byDay lastNDays
       let m := sessions.length / 2
       let wc := meanOf ((sessions.drop m).map (fun s => s.maxWeight))
               - meanOf ((sessions.take m).map (fun s => s.maxWeight))
       let rc := meanOf ((sessions.drop m).map (fun s => s.repsAtMax))
               - meanOf ((sessions.take m).map (fun s => s.repsAtMax))
       let eff := if assisted then -wc else wc
       if eff > 2 ∨ (rc > 2 ∧ eff ≥ -(1 / 2)) then .gaining
       else if eff < -2 ∨ (rc < -2 ∧ eff ≤ 1 / 2) then .losing
       else .maintaining) := by
  have hlen : (sessionAggs byDay lastNDays).length = lastNDays.length := by
    simp [sessionAggs]
  have hm1 : 1 ≤ (sessionAggs byDay lastNDays).length / 2 := by omega
  have hm2 : (sessionAggs byDay lastNDays).length / 2 < (sessionAggs byDay lastNDays).length := by
    omega
  have hf : ((sessionAggs byDay lastNDays).take
      ((sessionAggs byDay lastNDays).length / 2)).map (fun s => s.maxWeight) ≠ [] := by
    apply List.ne_nil_of_length_pos
    simp only [List.length_map, List.length_take]
    omega
  have hs : ((sessionAggs byDay lastNDays).drop
      ((sessionAggs byDay lastNDays).length / 2)).map (fun s => s.maxWeight) ≠ [] := by
    apply List.ne_nil_of_length_pos
    simp only [List.length_map, List.length_drop]
    omega
  have hfr : ((sessionAggs byDay lastNDays).take
      ((sessionAggs byDay lastNDays).length / 2)).map (fun s => s.repsAtMax) ≠ [] := by
    apply List.ne_nil_of_length_pos
    simp only [List.length_map, List.length_take]
    omega
  have hsr : ((sessionAggs byDay lastNDays).drop
      ((sessionAggs byDay lastNDays).length / 2)).map (fun s => s.repsAtMax) ≠ [] := by
    apply List.ne_nil_of_length_pos
    simp only [List.length_map, List.length_drop]
    omega
  unfold strengthBranch
  simp only []
  rw [if_neg hnp]
  rw [meanQ_eq _ hf, meanQ_eq _ hs, meanQ_eq _ hfr, meanQ_eq _ hsr]


theorem lastSlice_length (n : ℕ) (days : List ℤ) (hn : n ≠ 0) (h : n ≤ days.length) :
    (lastSlice n days).length = n := by
  simp only [lastSlice, if_neg hn, List.length_drop]
  omega

/-- C2: for a non-cardio exercise that passes the inactive and insufficient
checks, the trend over the per-day series of (maxWeight, repsAtMax) of the
last N day buckets is plateau exactly when the weight range is at most 0.5
and the reps range at most 1; otherwise, splitting the window at floor(N/2)
(first half the first floor(N/2) buckets, second half the rest), with
weightChange and repsChange the second-half mean minus the first-half mean
and the effective weight change negated exactly for an assisted exercise
(assisted-reps tag or assistance keyword in the title, per isAssisted), the
outcome is gaining iff eff > 2 or (repsChange > 2 and eff ≥ -0.5), losing
iff not gaining and (eff < -2 or (repsChange < -2 and eff ≤ 0.5)), else
maintaining. -/
theorem C2_strength_trend_rules (cfg : Config) (kind : String) (exTag : Option String)
    (title : String) (byDay : List (ℤ × DayAgg)) (d : ℤ)
    (hkind : kind ≠ "cardio")
    (hN : 1 ≤ cfg.minSessions)
    (hlast : (sortedDays byDay).getLast? = some d)
    (hgap : daysSince cfg.now d ≤ 60)
    (hcount : cfg.minSessions ≤ (sortedDays byDay).length) :
    (let sessions := sessionAggs byDay (lastSlice cfg.minSessions (sortedDays byDay))
     let weights := sessions.map (fun s => s.maxWeight)
     let reps := sessions.map (fun s => s.repsAtMax)
     let res := analyzeStrengthProgress cfg kind exTag title byDay
     let plateauCond := maxQ weights - minQ weights ≤ 1 / 2 ∧ maxQ reps - minQ reps ≤ 1
     let m := cfg.minSessions / 2
     let wc := meanOf ((sessions.drop m).map (fun s => s.maxWeight))
             - meanOf ((sessions.take m).map (fun s => s.maxWeight))
     let rc := meanOf ((sessions.drop m).map (fun s => s.repsAtMax))
             - meanOf ((sessions.take m).map (fun s => s.repsAtMax))
     let eff := if isAssisted exTag title then -wc else wc
     let gainCond := eff > 2 ∨ (rc > 2 ∧ eff ≥ -(1 / 2))
     let loseCond := eff < -2 ∨ (rc < -2 ∧ eff ≤ 1 / 2)
     (res = some .plateau ↔ plateauCond) ∧
     (¬ plateauCond →
       (res = some .gaining ↔ gainCond) ∧
       (res = some .losing ↔ ¬ gainCond ∧ loseCond) ∧
       (res = some .maintaining ↔ ¬ gainCond ∧ ¬ loseCond))) := by
  simp only []
  have hres : analyzeStrengthProgress cfg kind exTag title byDay =
      some (strengthBranch (isAssisted exTag title) byDay
        (lastSlice cfg.minSessions (sortedDays byDay))) := by
    rw [analyze_eq_branch cfg kind exTag title byDay d hlast hgap hcount, if_neg hkind]
  have hwlen : (lastSlice cfg.minSessions (sortedDays byDay)).length = cfg.minSessions :=
    lastSlice_length _ _ (by omega) hcount
  have hslen : (sessionAggs byDay (lastSlice cfg.minSessions (sortedDays byDay))).length
      = cfg.minSessions := by
    simp [sessionAggs, hwlen]
  have hwne : lastSlice cfg.minSessions (sortedDays byDay) ≠ [] := by
    apply List.ne_nil_of_length_pos
    omega
  rw [hres]
  by_cases hp : maxQ ((sessionAggs byDay (lastSlice cfg.minSessions (sortedDays byDay))).map
        (fun s => s.maxWeight))
      - minQ ((sessionAggs byDay (lastSlice cfg.minSessions (sortedDays byDay))).map
        (fun s => s.maxWeight)) ≤ 1 / 2 ∧
      maxQ ((sessionAggs byDay (lastSlice cfg.minSessions (sortedDays byDay))).map
        (fun s => s.repsAtMax))
      - minQ ((sessionAggs byDay (lastSlice cfg.minSessions (sortedDays byDay))).map
        (fun s => s.repsAtMax)) ≤ 1
  · rw [strengthBranch_eq_plateau _ _ _ hp]
    constructor
    · exact ⟨fun _ => hp, fun _ => rfl⟩
    · intro hnp
      exact absurd hp hnp
  · have h2 : 2 ≤ (lastSlice cfg.minSessions (sortedDays byDay)).length :=
      two_le_of_not_plateau byDay _ hwne hp
    rw [strengthBranch_eq_not_plateau _ _ _ h2 hp]
    simp only [hslen]
    constructor
    · constructor
      · intro h
        revert h
        split_ifs <;> simp
      · intro h
        exact absurd h hp
    · intro hnp
      refine ⟨?_, ?_, ?_⟩ <;> constructor <;> intro h <;> revert h <;>
        split_ifs with hG hL <;> simp_all

/-- The concrete day buckets of the C2 witness: five sessions, constant
reps 8, max weight 100, 100, 102.5, 102.5, 102.5. -/
def exC2 : List (ℤ × DayAgg) :=
  [(1, { maxWeight := 100, repsAtMax := 8 }),
   (2, { maxWeight := 100, repsAtMax := 8 }),
   (3, { maxWeight := 205 / 2, repsAtMax := 8 }),
   (4, { maxWeight := 205 / 2, repsAtMax := 8 }),
   (5, { maxWeight := 205 / 2, repsAtMax := 8 })]

/-- C2 witness: with N = 5 and a second-half mean weight 2.5 above the
first-half mean at stable reps, the classifier reports gaining. -/
theorem C2_witness :
    analyzeStrengthProgress ⟨10 * 86400000, 5⟩ "strength" none "Bench" exC2 =
      some .gaining := by
  have h := C2_strength_trend_rules ⟨10 * 86400000, 5⟩ "strength" none "Bench" exC2 5
    (by decide) (by decide) (by decide) (by decide) (by decide)
  exact ((h.2 (by with_unfolding_all decide)).1).mpr (by with_unfolding_all decide)


theorem mem_cardioMetric_pos (byDay : List (ℤ × DayAgg)) (lastNDays : List ℤ)
    (x : ℚ) (hx : x ∈ cardioMetric byDay lastNDays) : 0 < x := by
  unfold cardioMetric windowDistances windowDurations at hx
  split at hx <;> simpa using (List.mem_filter.mp hx).2

theorem cardioMetric_length_le (byDay : List (ℤ × DayAgg)) (lastNDays : List ℤ) :
    (cardioMetric byDay lastNDays).length ≤ lastNDays.length := by
  unfold cardioMetric windowDistances windowDurations
  split
  · calc _ ≤ ((sessionAggs byDay lastNDays).map (fun s => s.maxDistance)).length :=
        List.length_filter_le _ _
      _ = lastNDays.length := by simp [sessionAggs]
  · calc _ ≤ ((sessionAggs byDay lastNDays).map (fun s => s.totalDuration)).length :=
        List.length_filter_le _ _
      _ = lastNDays.length := by simp [sessionAggs]

theorem cardioMetric_ne_nil (byDay : List (ℤ × DayAgg)) (lastNDays : List ℤ)
    (hus : ¬ (windowDistances byDay lastNDays = [] ∧ windowDurations byDay lastNDays = [])) :
    cardioMetric byDay lastNDays ≠ [] := by
  unfold cardioMetric
  split
  · assumption
  · rename_i h
    intro hd
    exact hus ⟨not_not.mp (by simpa using h), hd⟩

theorem meanOf_pos (l : List ℚ) (hne : l ≠ []) (hpos : ∀ x ∈ l, 0 < x) :
    0 < meanOf l := by
  unfold meanOf
  apply div_pos (List.sum_pos l hpos hne)
  exact_mod_cast List.length_pos.mpr hne

/-- A usable cardio window that fails the plateau test has at least two days. -/
theorem two_le_of_not_cardio_plateau (byDay : List (ℤ × DayAgg)) (lastNDays : List ℤ)
    (hus : ¬ (windowDistances byDay lastNDays = [] ∧ windowDurations byDay lastNDays = []))
    (hnp : ¬ (maxQ (cardioMetric byDay lastNDays) - minQ (cardioMetric byDay lastNDays)
              ≤ meanOf (cardioMetric byDay lastNDays) * (5 / 100))) :
    2 ≤ lastNDays.length := by
  by_contra h
  apply hnp
  have hne := cardioMetric_ne_nil byDay lastNDays hus
  have hlen := cardioMetric_length_le byDay lastNDays
  have h1 : (cardioMetric byDay lastNDays).length = 1 := by
    have := List.length_pos.mpr hne
    omega
  obtain ⟨x, hx⟩ := List.length_eq_one.mp h1
  have hxpos : 0 < x := by
    apply mem_cardioMetric_pos byDay lastNDays
    rw [hx]
    exact List.mem_singleton_self x
  rw [hx]
  have : meanOf [x] = x := by
    unfold meanOf
    simp
  rw [this]
  simp [maxQ, minQ]
  positivity


theorem cardioBranch_eq_plateau (byDay : List (ℤ × DayAgg)) (lastNDays : List ℤ)
    (hus : ¬ (windowDistances byDay lastNDays = [] ∧ windowDurations byDay lastNDays = []))
    (hp : maxQ (cardioMetric byDay lastNDays) - minQ (cardioMetric byDay lastNDays)
          ≤ meanOf (cardioMetric byDay lastNDays) * (5 / 100)) :
    cardioBranch byDay lastNDays = some .plateau := by
  unfold cardioBranch
  simp only []
  rw [if_neg hus, if_pos hp]

theorem cardioBranch_eq_split (byDay : List (ℤ × DayAgg)) (lastNDays : List ℤ)
    (hus : ¬ (windowDistances byDay lastNDays = [] ∧ windowDurations byDay lastNDays = []))
    (hnp : ¬ (maxQ (cardioMetric byDay lastNDays) - minQ (cardioMetric byDay lastNDays)
          ≤ meanOf (cardioMetric byDay lastNDays) * (5 / 100)))
    (hf : (cardioMetric byDay lastNDays).take (lastNDays.length / 2) ≠ [])
    (hs : (cardioMetric byDay lastNDays).drop (lastNDays.length / 2) ≠ []) :
    cardioBranch byDay lastNDays =
      some
        (if ((meanOf ((cardioMetric byDay lastNDays).drop (lastNDays.length / 2))
              - meanOf ((cardioMetric byDay lastNDays).take (lastNDays.length / 2)))
             / meanOf ((cardioMetric byDay lastNDays).take (lastNDays.length / 2))) * 100 > 5
         then .gaining
         else if ((meanOf ((cardioMetric byDay lastNDays).drop (lastNDays.length / 2))
              - meanOf ((cardioMetric byDay lastNDays).take (lastNDays.length / 2)))
             / meanOf ((cardioMetric byDay lastNDays).take (lastNDays.length / 2))) * 100 < -5
         then .losing
         else .maintaining) := by
  unfold cardioBranch
  simp only []
  rw [if_neg hus, if_neg hnp]
  rw [show (sessionAggs byDay lastNDays).length = lastNDays.length by simp [sessionAggs]]
  rw [meanQ_eq _ hf, meanQ_eq _ hs]
  simp only []
  split_ifs <;> rfl

theorem cardioBranch_eq_empty_second_half (byDay : List (ℤ × DayAgg)) (lastNDays : List ℤ)
    (hus : ¬ (windowDistances byDay lastNDays = [] ∧ windowDurations byDay lastNDays = []))
    (hnp : ¬ (maxQ (cardioMetric byDay lastNDays) - minQ (cardioMetric byDay lastNDays)
          ≤ meanOf (cardioMetric byDay lastNDays) * (5 / 100)))
    (hs : (cardioMetric byDay lastNDays).drop (lastNDays.length / 2) = []) :
    cardioBranch byDay lastNDays = some .maintaining := by
  unfold cardioBranch
  simp only []
  rw [if_neg hus, if_neg hnp]
  rw [show (sessionAggs byDay lastNDays).length = lastNDays.length by simp [sessionAggs]]
  rw [hs]
  rw [show meanQ [] = none from rfl]
  cases hq : meanQ ((cardioMetric byDay lastNDays).take (lastNDays.length / 2)) <;> rfl


/-- C3: for a cardio exercise that passes the inactive and insufficient
checks and has usable data, over the series of positive per-day max
distances of the last N day buckets (preferred) or positive per-day total
durations (fallback when no distance is recorded across the window), the
outcome is plateau exactly when the series range is at most 5 percent of the
series mean; otherwise, splitting at the window's integer-floor midpoint
floor(N/2), with change the percentage of the second-half mean versus the
first-half mean: gaining iff change > 5, losing iff not gaining and
change < -5, else maintaining -- including the degenerate case of an empty
second half, where both comparisons fail (NaN in JS) and the outcome is
maintaining. -/
theorem C3_cardio_trend_rules (cfg : Config) (kind : String) (exTag : Option String)
    (title : String) (byDay : List (ℤ × DayAgg)) (d : ℤ)
    (hkind : kind = "cardio")
    (hN : 1 ≤ cfg.minSessions)
    (hlast : (sortedDays byDay).getLast? = some d)
    (hgap : daysSince cfg.now d ≤ 60)
    (hcount : cfg.minSessions ≤ (sortedDays byDay).length)
    (hus : ¬ (windowDistances byDay (lastSlice cfg.minSessions (sortedDays byDay)) = [] ∧
              windowDurations byDay (lastSlice cfg.minSessions (sortedDays byDay)) = [])) :
    (let metric := cardioMetric byDay (lastSlice cfg.minSessions (sortedDays byDay))
     let res := analyzeStrengthProgress cfg kind exTag title byDay
     let plateauCond := maxQ metric - minQ metric ≤ meanOf metric * (5 / 100)
     let m := cfg.minSessions / 2
     let change := ((meanOf (metric.drop m) - meanOf (metric.take m)) / meanOf (metric.take m)) * 100
     (res = some .plateau ↔ plateauCond) ∧
     (¬ plateauCond →
       (metric.drop m ≠ [] →
         (res = some .gaining ↔ change > 5) ∧
         (res = some .losing ↔ ¬ change > 5 ∧ change < -5) ∧
         (res = some .maintaining ↔ ¬ change > 5 ∧ ¬ change < -5)) ∧
       (metric.drop m = [] → res = some .maintaining))) := by
  simp only []
  have hres : analyzeStrengthProgress cfg kind exTag title byDay =
      cardioBranch byDay (lastSlice cfg.minSessions (sortedDays byDay)) := by
    rw [analyze_eq_branch cfg kind exTag title byDay d hlast hgap hcount, if_pos hkind]
  have hwlen : (lastSlice cfg.minSessions (sortedDays byDay)).length = cfg.minSessions :=
    lastSlice_length _ _ (by omega) hcount
  rw [hres]
  by_cases hp : maxQ (cardioMetric byDay (lastSlice cfg.minSessions (sortedDays byDay)))
      - minQ (cardioMetric byDay (lastSlice cfg.minSessions (sortedDays byDay)))
      ≤ meanOf (cardioMetric byDay (lastSlice cfg.minSessions (sortedDays byDay))) * (5 / 100)
  · rw [cardioBranch_eq_plateau _ _ hus hp]
    exact ⟨⟨fun _ => hp, fun _ => rfl⟩, fun hnp => absurd hp hnp⟩
  · have h2 : 2 ≤ (lastSlice cfg.minSessions (sortedDays byDay)).length :=
      two_le_of_not_cardio_plateau byDay _ hus hp
    have hm1 : 1 ≤ cfg.minSessions / 2 := by omega
    have hne := cardioMetric_ne_nil byDay _ hus
    have hf : (cardioMetric byDay (lastSlice cfg.minSessions (sortedDays byDay))).take
        (cfg.minSessions / 2) ≠ [] := by
      apply List.ne_nil_of_length_pos
      simp only [List.length_take]
      have := List.length_pos.mpr hne
      omega
    constructor
    · constructor
      · intro h
        exfalso
        by_cases hsh : (cardioMetric byDay (lastSlice cfg.minSessions (sortedDays byDay))).drop
            (cfg.minSessions / 2) = []
        · rw [cardioBranch_eq_empty_second_half _ _ hus hp (by rwa [hwlen])] at h
          simp at h
        · rw [cardioBranch_eq_split _ _ hus hp (by rwa [hwlen]) (by rwa [hwlen])] at h
          rw [hwlen] at h
          revert h
          split_ifs <;> simp
      · intro h
        exact absurd h hp
    · intro hnp
      constructor
      · intro hsh
        rw [cardioBranch_eq_split _ _ hus hp (by rwa [hwlen]) (by rwa [hwlen]), hwlen]
        refine ⟨?_, ?_, ?_⟩ <;> constructor <;> intro h <;> revert h <;>
          split_ifs with hG hL <;> simp_all
      · intro hsh
        rw [cardioBranch_eq_empty_second_half _ _ hus hp (by rwa [hwlen])]

/-- The concrete day buckets of the C3 witness: four cardio sessions with
max distances 5, 5, 6, 6. -/
def exC3 : List (ℤ × DayAgg) :=
  [(1, { maxDistance := 5 }), (2, { maxDistance := 5 }),
   (3, { maxDistance := 6 }), (4, { maxDistance := 6 })]

/-- C3 witness: with N = 4 and the second-half mean distance 20 percent over
the first half, the classifier reports gaining. -/
theorem C3_witness :
    analyzeStrengthProgress ⟨10 * 86400000, 4⟩ "cardio" none "Run" exC3 =
      some .gaining := by
  have h := C3_cardio_trend_rules ⟨10 * 86400000, 4⟩ "cardio" none "Run" exC3 4
    rfl (by decide) (by decide) (by decide) (by decide) (by with_unfolding_all decide)
  exact (((h.2 (by with_unfolding_all decide)).1 (by with_unfolding_all decide)).1).mpr
    (by with_unfolding_all decide)


/-! ## Null-insight characterization -/

theorem analyze_eq_none_of_empty (cfg : Config) (kind : String) (exTag : Option String)
    (title : String) (byDay : List (ℤ × DayAgg))
    (hlast : (sortedDays byDay).getLast? = none) :
    analyzeStrengthProgress cfg kind exTag title byDay = none := by
  unfold analyzeStrengthProgress
  simp only []
  rw [show (sortedDays byDay).getLast? = none from hlast]

theorem analyze_eq_inactive (cfg : Config) (kind : String) (exTag : Option String)
    (title : String) (byDay : List (ℤ × DayAgg)) (d : ℤ)
    (hlast : (sortedDays byDay).getLast? = some d)
    (hgap : 60 < daysSince cfg.now d) :
    analyzeStrengthProgress cfg kind exTag title byDay =
      some (.inactive (daysSince cfg.now d)) := by
  unfold analyzeStrengthProgress
  simp only []
  rw [show (sortedDays byDay).getLast? = some d from hlast]
  simp [hgap]

theorem analyze_eq_insufficient (cfg : Config) (kind : String) (exTag : Option String)
    (title : String) (byDay : List (ℤ × DayAgg)) (d : ℤ)
    (hlast : (sortedDays byDay).getLast? = some d)
    (hgap : daysSince cfg.now d ≤ 60)
    (hlen : (sortedDays byDay).length < cfg.minSessions) :
    analyzeStrengthProgress cfg kind exTag title byDay =
      some (.insufficient (sortedDays byDay).length cfg.minSessions) := by
  unfold analyzeStrengthProgress
  simp only []
  rw [show (sortedDays byDay).getLast? = some d from hlast]
  have h1 : ¬ (60 < daysSince cfg.now d) := not_lt.mpr hgap
  simp [h1, hlen]

theorem cardioBranch_eq_none_iff (byDay : List (ℤ × DayAgg)) (lastNDays : List ℤ) :
    cardioBranch byDay lastNDays = none ↔
      (windowDistances byDay lastNDays = [] ∧ windowDurations byDay lastNDays = []) := by
  unfold cardioBranch
  simp only []
  split_ifs with h hp
  · simp [h]
  · simp only [reduceCtorEq, false_iff]
    exact h
  · constructor
    · intro hc
      exfalso
      revert hc
      rcases meanQ ((cardioMetric byDay lastNDays).take ((sessionAggs byDay lastNDays).length / 2))
        with _ | x <;>
        rcases meanQ ((cardioMetric byDay lastNDays).drop ((sessionAggs byDay lastNDays).length / 2))
          with _ | y <;> simp only [] <;> first
          | (split_ifs <;> simp)
          | simp
    · intro hrhs
      exact absurd hrhs h


/-- C4 (amended): the computed insight is absent exactly when the exercise
has no day bucket at all, or when it reaches the cardio branch (gap at most
60 days, enough day buckets, cardio kind) and no session of the comparison
window has a positive max distance or a positive total duration; every
other exercise receives one of the six named outcomes. -/
theorem C4_null_insight_characterization (cfg : Config) (kind : String)
    (exTag : Option String) (title : String) (byDay : List (ℤ × DayAgg)) :
    analyzeStrengthProgress cfg kind exTag title byDay = none ↔
      (byDay = [] ∨
       ∃ d, (sortedDays byDay).getLast? = some d ∧
         daysSince cfg.now d ≤ 60 ∧
         cfg.minSessions ≤ (sortedDays byDay).length ∧
         kind = "cardio" ∧
         windowDistances byDay (lastSlice cfg.minSessions (sortedDays byDay)) = [] ∧
         windowDurations byDay (lastSlice cfg.minSessions (sortedDays byDay)) = []) := by
  rcases hl : (sortedDays byDay).getLast? with _ | d
  · have hempty : byDay = [] := by
      have hnil : sortedDays byDay = [] := by
        rcases hsd : sortedDays byDay with _ | ⟨a, l⟩
        · rfl
        · rw [hsd] at hl
          simp [List.getLast?] at hl
      have hlen : byDay.length = 0 := by
        have hc := congrArg List.length hnil
        simpa [sortedDays, length_sortLe] using hc
      exact List.length_eq_zero.mp hlen
    rw [analyze_eq_none_of_empty cfg kind exTag title byDay hl]
    simp [hempty]
  · have hbne : byDay ≠ [] := by
      intro hb
      rw [hb] at hl
      simp [sortedDays, sortLe] at hl
    by_cases h60 : 60 < daysSince cfg.now d
    · rw [analyze_eq_inactive _ _ _ _ _ _ hl h60]
      constructor
      · intro hc
        exact absurd hc (by simp)
      · rintro (hb | ⟨d2, hl2, hgap2, _⟩)
        · exact absurd hb hbne
        · injection hl2 with he
          subst he
          omega
    · by_cases hlen : (sortedDays byDay).length < cfg.minSessions
      · rw [analyze_eq_insufficient _ _ _ _ _ _ hl (not_lt.mp h60) hlen]
        constructor
        · intro hc
          exact absurd hc (by simp)
        · rintro (hb | ⟨d2, hl2, _, hcount2, _⟩)
          · exact absurd hb hbne
          · exact absurd hcount2 (by omega)
      · rw [analyze_eq_branch cfg kind exTag title byDay d hl (not_lt.mp h60) (not_lt.mp hlen)]
        by_cases hk : kind = "cardio"
        · rw [if_pos hk, cardioBranch_eq_none_iff]
          constructor
          · rintro ⟨hd, hdur⟩
            exact Or.inr ⟨d, rfl, not_lt.mp h60, not_lt.mp hlen, hk, hd, hdur⟩
          · rintro (hb | ⟨d2, hl2, _, _, _, hd, hdur⟩)
            · exact absurd hb hbne
            · exact ⟨hd, hdur⟩
        · rw [if_neg hk]
          constructor
          · intro hc
            exact absurd hc (by simp)
          · rintro (hb | ⟨d2, hl2, _, _, hk2, _⟩)
            · exact absurd hb hbne
            · exact absurd hk2 hk

/-- The input refuting C4 as stated: one session containing one exercise
entry with an empty set list. -/
def wsC4 : List Workout := [⟨0, [{ title := "Bench" }]⟩]

/-- C4 counterexample: an exercise entry with an empty set list is grouped
into a record of kind "unknown" -- not cardio -- and its insight is null,
so null is not reserved to the cardio branch with zero usable data. -/
theorem C4_null_without_cardio_branch :
    (exercisesPass dkStd "en" ⟨0, 5⟩ wsC4).map (fun r => (r.kind, r.insight)) =
      [("unknown", none)] := by decide

/-! ## The day-aggregate fold: order-independent characterization -/

theorem foldr_max_init (a b : ℚ) (xs : List ℚ) :
    xs.foldr max (max a b) = max a (xs.foldr max b) := by
  induction xs with
  | nil => rfl
  | cons y ys ih => simp [List.foldr_cons, ih, max_left_comm]

theorem foldr_max_append_singleton (xs : List ℚ) (x b : ℚ) :
    (xs ++ [x]).foldr max b = max x (xs.foldr max b) := by
  rw [List.foldr_append]
  simpa using foldr_max_init x b xs

theorem le_foldr_max (xs : List ℚ) (b x : ℚ) (hx : x ∈ xs) : x ≤ xs.foldr max b := by
  induction xs with
  | nil => cases hx
  | cons y ys ih =>
      rcases List.mem_cons.mp hx with h | h
      · subst h
        exact le_max_left _ _
      · exact le_trans (ih h) (le_max_right _ _)

theorem base_le_foldr_max (xs : List ℚ) (b : ℚ) : b ≤ xs.foldr max b := by
  induction xs with
  | nil => exact le_refl b
  | cons y ys ih => exact le_trans ih (le_max_right _ _)

theorem foldr_max_mem (xs : List ℚ) (b : ℚ) :
    xs.foldr max b = b ∨ xs.foldr max b ∈ xs := by
  induction xs with
  | nil => exact Or.inl rfl
  | cons y ys ih =>
      simp only [List.foldr_cons]
      rcases le_total y (ys.foldr max b) with h | h
      · rw [max_eq_right h]
        rcases ih with h2 | h2
        · exact Or.inl h2
        · exact Or.inr (List.mem_cons_of_mem y h2)
      · rw [max_eq_left h]
        exact Or.inr (List.mem_cons_self y ys)

/-- The maximum of a list as the fold JS's repsAtMax bookkeeping performs:
none for an empty list. -/
def omax (l : List ℚ) : Option ℚ :=
  l.foldr (fun a acc => match acc with | none => some a | some b => some (max a b)) none

theorem omax_append_singleton (xs : List ℚ) (r : ℚ) :
    omax (xs ++ [r]) = some (match omax xs with | none => r | some m => max m r) := by
  induction xs with
  | nil => rfl
  | cons x ys ih =>
      simp only [List.cons_append, omax, List.foldr_cons] at ih ⊢
      rw [ih]
      rcases h : (ys.foldr (fun a acc => match acc with
          | none => some a | some b => some (max a b)) none) with _ | b <;>
        simp [h, max_assoc]

theorem omax_mem (xs : List ℚ) (m : ℚ) (h : omax xs = some m) : m ∈ xs := by
  induction xs generalizing m with
  | nil => cases h
  | cons x ys ih =>
      simp only [omax, List.foldr_cons] at h
      rcases h2 : (ys.foldr (fun a acc => match acc with
          | none => some a | some b => some (max a b)) none) with _ | b
      · rw [h2] at h
        simp only [] at h
        injection h with he
        exact he ▸ List.mem_cons_self x ys
      · rw [h2] at h
        simp only [] at h
        injection h with he
        rcases le_total x b with hle | hle
        · rw [← he, max_eq_right hle]
          exact List.mem_cons_of_mem x (ih b h2)
        · rw [← he, max_eq_left hle]
          exact List.mem_cons_self x ys

theorem foldr_max_zero_eq_omax (xs : List ℚ) :
    xs.foldr max 0 = (match omax xs with | none => (0 : ℚ) | some m => max 0 m) := by
  induction xs with
  | nil => rfl
  | cons x ys ih =>
      simp only [List.foldr_cons, omax] at ih ⊢
      rcases h : (ys.foldr (fun a acc => match acc with
          | none => some a | some b => some (max a b)) none) with _ | b <;>
        rw [h] at ih <;> rw [h] <;> simp only [] at ih ⊢ <;> rw [ih]
      · exact max_comm x 0
      · exact max_left_comm x 0 b


/-- Order-independent form of the folded max weight: the maximum recorded
weight, floored at the 0 the bucket starts from. -/
def maxWeightSpec (l : List TSet) : ℚ := (l.map (fun s => s.weight)).foldr max 0

/-- The rep counts of the sets attaining the folded max weight. -/
def attainReps (l : List TSet) : List ℚ :=
  (l.filter (fun s => s.weight = maxWeightSpec l)).map (fun s => s.reps)

/-- Order-independent form of the folded repsAtMax: the largest rep count
among the sets attaining the max weight; the initial 0 survives only while
no strictly positive weight has replaced it. -/
def repsAtMaxSpec (l : List TSet) : ℚ :=
  match omax (attainReps l) with
  | none => 0
  | some m => if 0 < maxWeightSpec l then m else max 0 m

theorem mem_weight_le_maxWeightSpec (l : List TSet) (s : TSet) (hs : s ∈ l) :
    s.weight ≤ maxWeightSpec l :=
  le_foldr_max _ _ _ (List.mem_map_of_mem _ hs)

theorem maxWeightSpec_nonneg (l : List TSet) : 0 ≤ maxWeightSpec l :=
  base_le_foldr_max _ _

theorem maxWeightSpec_append_singleton (l : List TSet) (s : TSet) :
    maxWeightSpec (l ++ [s]) = max s.weight (maxWeightSpec l) := by
  unfold maxWeightSpec
  rw [List.map_append]
  exact foldr_max_append_singleton _ _ _

theorem attainReps_ne_nil_of_pos (l : List TSet) (h : 0 < maxWeightSpec l) :
    attainReps l ≠ [] := by
  rcases foldr_max_mem (l.map (fun s => s.weight)) 0 with hb | hm
  · unfold maxWeightSpec at h
    rw [hb] at h
    exact absurd h (lt_irrefl 0)
  · obtain ⟨s, hs, hw⟩ := List.mem_map.mp hm
    have : s ∈ l.filter (fun s => s.weight = maxWeightSpec l) := by
      rw [List.mem_filter]
      exact ⟨hs, by simpa using hw⟩
    intro hc
    have := List.mem_map_of_mem (fun s => s.reps) this
    rw [show ((l.filter (fun s => s.weight = maxWeightSpec l)).map (fun s => s.reps))
        = attainReps l from rfl, hc] at this
    cases this

theorem omax_none_nil (xs : List ℚ) (h : omax xs = none) : xs = [] := by
  cases xs with
  | nil => rfl
  | cons x ys =>
      exfalso
      simp only [omax, List.foldr_cons] at h
      rcases h2 : (ys.foldr (fun a acc => match acc with
          | none => some a | some b => some (max a b)) none) with _ | b <;>
        rw [h2] at h <;> simp at h

/-- The one-step invariant: the day fold computes the order-independent
specification of every field. -/
theorem dayFold_spec (l : List TSet) :
    l.foldl foldSet emptyAgg =
      { maxWeight := maxWeightSpec l
        repsAtMax := repsAtMaxSpec l
        totalReps := (l.map (fun s => s.reps)).sum
        volume := (l.map (fun s => s.weight * s.reps)).sum
        setCount := l.length
        avgVolumePerSet := 0
        totalDistance := (l.map (fun s => s.distance)).sum
        totalDuration := (l.map (fun s => s.duration)).sum
        maxDistance := (l.map (fun s => s.distance)).foldr max 0
        maxDuration := (l.map (fun s => s.duration)).foldr max 0 } := by
  induction l using List.reverseRecOn with
  | nil => rfl
  | append_singleton l s ih =>
      rw [List.foldl_append, List.foldl_cons, List.foldl_nil, ih]
      have hmw := maxWeightSpec_append_singleton l s
      unfold foldSet
      simp only [List.map_append, List.sum_append, List.length_append,
        foldr_max_append_singleton, List.map_cons, List.map_nil, List.sum_cons,
        List.sum_nil, List.length_cons, List.length_nil]
      rcases lt_trichotomy (maxWeightSpec l) s.weight with hgt | heq | hlt
      · rw [if_pos (by simpa using hgt)]
        have hmax : maxWeightSpec (l ++ [s]) = s.weight := by
          rw [hmw, max_eq_left (le_of_lt hgt)]
        have hattain : attainReps (l ++ [s]) = [s.reps] := by
          unfold attainReps
          rw [hmax, List.filter_append]
          have h1 : l.filter (fun t => t.weight = s.weight) = [] := by
            rw [List.filter_eq_nil_iff]
            intro t ht hc
            simp only [decide_eq_true_eq] at hc
            have := mem_weight_le_maxWeightSpec l t ht
            rw [hc] at this
            exact absurd this (not_le.mpr hgt)
          rw [h1]
          simp
        have hreps : repsAtMaxSpec (l ++ [s]) = s.reps := by
          unfold repsAtMaxSpec
          rw [hattain, hmax]
          have hpos : 0 < s.weight := lt_of_le_of_lt (maxWeightSpec_nonneg l) hgt
          simp [omax, hpos]
        simp [DayAgg.mk.injEq, hmax, hreps, hmw, add_comm, max_comm,
          max_eq_left (le_of_lt hgt)]
      · -- s.weight equals the running max: keep the larger rep count
        have hww : ¬ (s.weight > maxWeightSpec l) := by
          rw [heq]
          exact lt_irrefl _
        rw [if_neg (by simpa using hww), if_pos (by simpa using heq.symm)]
        have hmax : maxWeightSpec (l ++ [s]) = maxWeightSpec l := by
          rw [hmw, heq]
          exact max_self _
        have hattain : attainReps (l ++ [s]) = attainReps l ++ [s.reps] := by
          unfold attainReps
          rw [hmax, List.filter_append, List.map_append]
          congr 1
          simp [heq]
        have hreps : repsAtMaxSpec (l ++ [s]) = max (repsAtMaxSpec l) s.reps := by
          unfold repsAtMaxSpec
          rw [hattain, hmax, omax_append_singleton]
          rcases ho : omax (attainReps l) with _ | m
          · simp only []
            by_cases hpos : 0 < maxWeightSpec l
            · exact absurd (omax_none_nil (attainReps l) ho)
                (attainReps_ne_nil_of_pos l hpos)
            · simp [hpos, max_comm]
          · simp only []
            by_cases hpos : 0 < maxWeightSpec l
            · simp [hpos]
            · simp [hpos, max_assoc]
        simp [DayAgg.mk.injEq, hmax, hreps, hmw, add_comm, max_comm, heq]
      · -- s.weight below the running max: nothing changes
        have h1 : ¬ (s.weight > maxWeightSpec l) := not_lt.mpr (le_of_lt hlt)
        have h2 : ¬ (s.weight = maxWeightSpec l) := ne_of_lt hlt
        rw [if_neg (by simpa using h1), if_neg (by simpa using h2)]
        have hmax : maxWeightSpec (l ++ [s]) = maxWeightSpec l := by
          rw [hmw]
          exact max_eq_right (le_of_lt hlt)
        have hattain : attainReps (l ++ [s]) = attainReps l := by
          unfold attainReps
          rw [hmax, List.filter_append, List.map_append]
          have : List.filter (fun t => t.weight = maxWeightSpec l) [s] = [] := by
            simp [h2]
          rw [this]
          simp
        have hreps : repsAtMaxSpec (l ++ [s]) = repsAtMaxSpec l := by
          unfold repsAtMaxSpec
          rw [hattain, hmax]
        simp [DayAgg.mk.injEq, hmax, hreps, hmw, add_comm, max_comm,
          max_eq_right (le_of_lt hlt)]


theorem lookupA_updateAssoc (m : List (ℤ × DayAgg)) (d d2 : ℤ) (f : DayAgg → DayAgg) :
    lookupA (updateAssoc m d f) d2 =
      if d2 = d then some (f ((lookupA m d).getD emptyAgg)) else lookupA m d2 := by
  induction m with
  | nil =>
      simp only [updateAssoc, lookupA]
      split_ifs with h1 h2 h2 <;> simp_all
  | cons p rest ih =>
      obtain ⟨d0, a⟩ := p
      simp only [updateAssoc, lookupA]
      split_ifs with h1 h2 h2 <;> simp_all [lookupA, ih]

theorem lookupA_byDayFold (sets : List TSet) (m : List (ℤ × DayAgg)) (d : ℤ) :
    lookupA (sets.foldl (fun acc s => updateAssoc acc s.day (fun a => foldSet a s)) m) d =
      if lookupA m d = none ∧ sets.filter (fun s => s.day = d) = [] then none
      else some ((sets.filter (fun s => s.day = d)).foldl foldSet
        ((lookupA m d).getD emptyAgg)) := by
  induction sets generalizing m with
  | nil =>
      simp only [List.foldl_nil, List.filter_nil]
      rcases h : lookupA m d with _ | a
      · simp
      · simp
  | cons s rest ih =>
      simp only [List.foldl_cons, List.filter_cons]
      rw [ih, lookupA_updateAssoc]
      by_cases hd : s.day = d
      · simp [hd]
      · simp [hd, Ne.symm hd]

theorem lookupA_byDayRaw (sets : List TSet) (d : ℤ) :
    lookupA (byDayRaw sets) d =
      if sets.filter (fun s => s.day = d) = [] then none
      else some ((sets.filter (fun s => s.day = d)).foldl foldSet emptyAgg) := by
  unfold byDayRaw
  rw [lookupA_byDayFold]
  simp [lookupA]

theorem lookupA_map_setAvg (m : List (ℤ × DayAgg)) (d : ℤ) :
    lookupA (m.map (fun p => (p.1, setAvg p.2))) d = (lookupA m d).map setAvg := by
  induction m with
  | nil => rfl
  | cons p rest ih =>
      obtain ⟨d0, a⟩ := p
      simp only [List.map_cons, lookupA]
      by_cases h : d0 = d
      · rw [if_pos h, if_pos h]
        rfl
      · rw [if_neg h, if_neg h, ih]

theorem lookupA_byDayOf (sets : List TSet) (d : ℤ) :
    lookupA (byDayOf sets) d =
      if sets.filter (fun s => s.day = d) = [] then none
      else some (setAvg ((sets.filter (fun s => s.day = d)).foldl foldSet emptyAgg)) := by
  unfold byDayOf
  rw [lookupA_map_setAvg, lookupA_byDayRaw]
  split_ifs <;> rfl

theorem repsAtMaxSpec_eq_foldr (l : List TSet) (h : ∀ s ∈ l, 0 ≤ s.reps) :
    repsAtMaxSpec l =
      ((l.filter (fun s => s.weight = maxWeightSpec l)).map (fun s => s.reps)).foldr max 0 := by
  unfold repsAtMaxSpec
  rw [show ((l.filter (fun s => s.weight = maxWeightSpec l)).map (fun s => s.reps))
      = attainReps l from rfl]
  rw [foldr_max_zero_eq_omax (attainReps l)]
  rcases ho : omax (attainReps l) with _ | m
  · rfl
  · simp only []
    split_ifs with hpos
    · have hm : m ∈ attainReps l := omax_mem _ _ ho
      obtain ⟨s, hs, hsr⟩ := List.mem_map.mp hm
      have : 0 ≤ m := hsr ▸ h s (List.mem_of_mem_filter hs)
      exact (max_eq_right this).symm
    · rfl

theorem avg_if_eq (c : ℕ) (v : ℚ) :
    (if 0 < c then v / (c : ℚ) else 0) = (if c = 0 then 0 else v / (c : ℚ)) := by
  rcases c with _ | n <;> simp

/-- C5: a day bucket reflects exactly the union of that day's sets: volume
is the sum of weight times reps, setCount the number of sets, maxWeight the
maximum set weight floored at 0, repsAtMax the largest rep count among the
sets attaining maxWeight (rep counts are nonnegative), the cardio totals
accumulate additively, the cardio maxima are running maxima, and
avgVolumePerSet is volume over setCount (0 for an empty count). -/
theorem C5_day_aggregate_union (sets : List TSet) (d : ℤ) (a : DayAgg)
    (hreps : ∀ s ∈ sets, 0 ≤ s.reps)
    (ha : lookupA (byDayOf sets) d = some a) :
    (let ds := sets.filter (fun s => s.day = d)
     a.volume = (ds.map (fun s => s.weight * s.reps)).sum ∧
     a.setCount = ds.length ∧
     a.maxWeight = (ds.map (fun s => s.weight)).foldr max 0 ∧
     a.repsAtMax = ((ds.filter (fun s => s.weight = a.maxWeight)).map
        (fun s => s.reps)).foldr max 0 ∧
     a.totalDistance = (ds.map (fun s => s.distance)).sum ∧
     a.totalDuration = (ds.map (fun s => s.duration)).sum ∧
     a.maxDistance = (ds.map (fun s => s.distance)).foldr max 0 ∧
     a.maxDuration = (ds.map (fun s => s.duration)).foldr max 0 ∧
     a.avgVolumePerSet = (if a.setCount = 0 then 0 else a.volume / (a.setCount : ℚ))) := by
  simp only []
  rw [lookupA_byDayOf] at ha
  split_ifs at ha with hne
  injection ha with ha2
  rw [dayFold_spec] at ha2
  subst ha2
  have hrepsd : ∀ s ∈ sets.filter (fun s => s.day = d), 0 ≤ s.reps :=
    fun s hs => hreps s (List.mem_of_mem_filter hs)
  refine ⟨rfl, rfl, rfl, ?_, rfl, rfl, rfl, rfl, ?_⟩
  · exact repsAtMaxSpec_eq_foldr _ hrepsd
  · exact avg_if_eq _ _

/-- The concrete sets of the C5 witness: three sets on day 0 (the last one
at a lower weight), one on day 1. -/
def setsC5 : List TSet :=
  [⟨0, 100, 5, 0, 0⟩, ⟨0, 100, 8, 0, 0⟩, ⟨1, 60, 10, 0, 0⟩, ⟨0, 80, 12, 0, 0⟩]

/-- The day-0 aggregate the fold builds for setsC5. -/
def aggC5 : DayAgg :=
  { maxWeight := 100, repsAtMax := 8, totalReps := 25, volume := 2260, setCount := 3,
    avgVolumePerSet := 2260 / 3, totalDistance := 0, totalDuration := 0,
    maxDistance := 0, maxDuration := 0 }

set_option maxRecDepth 4000 in
/-- C5 witness: on a concrete day bucket the folded repsAtMax is the largest
rep count among the sets attaining the max weight. -/
theorem C5_witness :
    aggC5.repsAtMax = (((setsC5.filter (fun s => s.day = (0 : ℤ))).filter
      (fun s => s.weight = aggC5.maxWeight)).map (fun s => s.reps)).foldr max 0 :=
  (C5_day_aggregate_union setsC5 0 aggC5 (by decide)
    (by with_unfolding_all decide)).2.2.2.1

/-! ## The exercise-kind classifier, bodyweight flag and top-set ranker claims -/

/-- The input exposing C6: one exercise whose only set records a positive
weight and nothing else. -/
def wsC6 : List Workout :=
  [⟨0, [{ title := "Leg Press",
          sets := [{ weight := 100, reps := 0, distance := 0, duration := 0 }] }]⟩]

/-- C6: the assembled pass classifies a weight-only exercise as "unknown",
because detectExerciseType reads the absent `weight_kg` field of the records
the pass builds (they store the weight under `weight`); the detector applied
to the same set with its weight under `weight_kg` returns "strength", as the
claim demands (ratio 1 > 0.7). -/
theorem C6_detector_field_mismatch :
    ((exercisesPass dkStd "en" ⟨0, 5⟩ wsC6).map (fun r => r.kind) = ["unknown"]) ∧
    detectExerciseType [⟨some 100, some 0, some 0, some 0⟩] = "strength" := by
  constructor
  · decide
  · with_unfolding_all decide

/-- A set that contributes anything: some positive recorded field (the
vocabulary of the kind classifier). -/
def contributesB (s : TSet) : Bool :=
  s.weight > 0 || s.reps > 0 || s.distance > 0 || s.duration > 0

/-- The bodyweight/assisted-capable condition as claim C7 words it: reps on
every contributing set, weight on none, or the explicit reps-only tag. -/
def bodyweightFlagClaim (exTag : Option String) (sets : List TSet) : Bool :=
  exTag == some "reps_only" ||
    (sets.all (fun s => !(contributesB s) || s.reps > 0) &&
     sets.all (fun s => !(s.weight > 0)))

/-- The input refuting C7 as stated: one set with reps only, one
contributing set with duration only (no reps). -/
def wsC7 : List Workout :=
  [⟨0, [{ title := "Plank Pull",
          sets := [{ weight := 0, reps := 10, distance := 0, duration := 0 },
                   { weight := 0, reps := 0, distance := 0, duration := 600 }] }]⟩]

/-- C7 counterexample: the pass flags the exercise bodyweight although one
of its contributing sets records no reps, so the flag differs from the
claimed every-contributing-set condition at this input. -/
theorem C7_flag_vs_claimed_condition :
    ((exercisesPass dkStd "en" ⟨0, 5⟩ wsC7).map
      (fun r => (r.isBodyweight, bodyweightFlagClaim r.exTag r.sets))) = [(true, false)] := by
  decide

/-- C7 (amended): the flag is set iff the explicit reps-only tag is present,
or some set records positive reps and no set records positive weight. -/
theorem C7_bodyweight_flag_characterization (exTag : Option String) (sets : List TSet) :
    bodyweightFlag exTag sets = true ↔
      (exTag = some "reps_only" ∨
       ((∃ s ∈ sets, s.reps > 0) ∧ ∀ s ∈ sets, ¬ s.weight > 0)) := by
  unfold bodyweightFlag isBodyweightExercise
  by_cases h : sets = []
  · subst h
    simp
  · rw [if_neg h]
    simp [List.any_eq_true]

theorem cmpCardio_antisymm (a b : TSet) : cmpCardio a b = - cmpCardio b a := by
  unfold cmpCardio
  by_cases h : a.distance > 0 ∧ b.distance > 0
  · rw [if_pos h, if_pos ⟨h.2, h.1⟩]
    ring
  · rw [if_neg h, if_neg (fun hh => h ⟨hh.2, hh.1⟩)]
    ring

theorem cmpStrength_antisymm (assisted : Bool) (a b : TSet) :
    cmpStrength assisted a b = - cmpStrength assisted b a := by
  unfold cmpStrength
  cases assisted <;> simp [neg_sub]

theorem leC_total (kind : String) (assisted : Bool) (a b : TSet) :
    leC (cmpFor kind assisted) a b = true ∨ leC (cmpFor kind assisted) b a = true := by
  unfold leC
  simp only [decide_eq_true_eq]
  have hanti : cmpFor kind assisted a b = - cmpFor kind assisted b a := by
    unfold cmpFor
    split_ifs
    · exact cmpCardio_antisymm a b
    · exact cmpStrength_antisymm assisted a b
  rcases le_total (cmpFor kind assisted a b) 0 with h | h
  · exact Or.inl h
  · right
    rw [hanti] at h
    linarith


/-- C8 (amended): the top-set list contains at most 3 sets (exactly
min(3, count), with no error path), drawn from the exercise's sets and
sorted by the selected criterion: for cardio kind by distance descending
when both compared sets have positive distance and by duration descending
otherwise; for the other kinds by total work descending, ascending when the
exercise is assisted -- so an assisted exercise with sets of work 50 and 30
ranks the set of work 30 first. -/
theorem C8_top_sets_rules (kind : String) (assisted : Bool) (sets : List TSet) :
    ((topSetsOf kind assisted sets).length = min 3 sets.length ∧
     (∀ s ∈ topSetsOf kind assisted sets, s ∈ sets) ∧
     List.Chain'
       (fun a b =>
         if kind = "cardio" then
           (if a.distance > 0 ∧ b.distance > 0 then b.distance ≤ a.distance
            else b.duration ≤ a.duration)
         else (if assisted = true then work a ≤ work b else work b ≤ work a))
       (topSetsOf kind assisted sets)) ∧
    topSetsOf "strength" true [⟨0, 50, 1, 0, 0⟩, ⟨0, 30, 1, 0, 0⟩] =
      [⟨0, 30, 1, 0, 0⟩, ⟨0, 50, 1, 0, 0⟩] := by
  refine ⟨⟨?_, ?_, ?_⟩, by with_unfolding_all decide⟩
  · simp [topSetsOf, List.length_take, length_sortLe]
  · intro s hs
    have := List.take_subset 3 (sortLe (leC (cmpFor kind assisted)) sets)
    exact (mem_sortLe _ _ _).mp (this hs)
  · have hchain := chain_sortLe (leC (cmpFor kind assisted)) (leC_total kind assisted) sets
    have htake : List.Chain' (fun a b => leC (cmpFor kind assisted) a b = true)
        (topSetsOf kind assisted sets) := by
      unfold topSetsOf
      exact List.Chain'.take hchain 3
    refine htake.imp ?_
    intro a b hab
    unfold leC cmpFor cmpCardio cmpStrength at hab
    simp only [decide_eq_true_eq] at hab
    split_ifs at hab ⊢ <;> first
      | linarith
      | simp_all

/-- The input refuting the cardio tie-break of C8 as stated: two cardio
sets, one with positive distance and the shorter duration, one with no
distance and the longer duration. -/
def wsC8 : List Workout :=
  [⟨0, [{ title := "Row",
          sets := [{ weight := 0, reps := 0, distance := 5, duration := 100 },
                   { weight := 0, reps := 0, distance := 0, duration := 200 }] }]⟩]

/-- C8 counterexample: in the assembled pass the no-distance longer set
ranks first although the other compared set has positive distance, because
the comparator uses distance only when both compared sets have one. -/
theorem C8_duration_beats_single_distance :
    ((exercisesPass dkStd "en" ⟨0, 5⟩ wsC8).map
      (fun r => (r.kind, r.topSets.map (fun s => s.distance)))) =
      [("cardio", [0, 5])] := by
  with_unfolding_all decide

/-! ## The PR deduplicator -/

theorem omax_le (xs : List ℚ) (m : ℚ) (h : omax xs = some m) (x : ℚ) (hx : x ∈ xs) :
    x ≤ m := by
  induction xs generalizing m with
  | nil => cases hx
  | cons y ys ih =>
      simp only [omax, List.foldr_cons] at h
      rcases h2 : (ys.foldr (fun a acc => match acc with
          | none => some a | some b => some (max a b)) none) with _ | b <;>
        rw [h2] at h <;> simp only [] at h <;> injection h with he <;> subst he
      · rcases List.mem_cons.mp hx with h3 | h3
        · exact le_of_eq h3
        · rw [omax_none_nil ys h2] at h3
          cases h3
      · rcases List.mem_cons.mp hx with h3 | h3
        · exact h3 ▸ le_max_left _ _
        · exact le_trans (ih b h2 h3) (le_max_right _ _)

/-- The best entry of a candidate list as C9 words it: the entry with the
greatest numeric value, the earliest seen on ties. -/
def bestPR (cs : List PRTagged) : Option PRTagged :=
  match omax (cs.map (fun p => p.value)) with
  | none => none
  | some m => cs.find? (fun p => p.value = m)

theorem bestPR_concat (cs : List PRTagged) (pr : PRTagged) :
    bestPR (cs ++ [pr]) =
      some (match bestPR cs with
            | none => pr
            | some c => if pr.value > c.value then pr else c) := by
  by_cases hnil : cs = []
  · subst hnil
    simp only [List.nil_append]
    unfold bestPR
    rw [show List.map (fun p => p.value) [pr] = [pr.value] from rfl]
    rw [show omax [pr.value] = some pr.value from rfl]
    rw [show List.map (fun p => p.value) ([] : List PRTagged) = [] from rfl]
    rw [show omax ([] : List ℚ) = none from rfl]
    simp [List.find?_cons_of_pos]
  · obtain ⟨m, h⟩ : ∃ m, omax (cs.map (fun p => p.value)) = some m := by
      rcases ho : omax (cs.map (fun p => p.value)) with _ | m0
      · exact absurd (List.map_eq_nil_iff.mp (omax_none_nil _ ho)) hnil
      · exact ⟨m0, ho⟩
    unfold bestPR
    rw [List.map_append, show List.map (fun p => p.value) [pr] = [pr.value] from rfl,
      omax_append_singleton, h]
    simp only []
    obtain ⟨p0, hp0, hv0⟩ := List.mem_map.mp (omax_mem _ _ h)
    have hsome : (cs.find? (fun p => p.value = m)).isSome := by
      rw [List.find?_isSome]
      exact ⟨p0, hp0, by simp [hv0]⟩
    obtain ⟨c, hc⟩ := Option.isSome_iff_exists.mp hsome
    have hcv : c.value = m := by simpa using List.find?_some hc
    rw [hc]
    simp only []
    by_cases hgt : pr.value > m
    · simp only [max_eq_right (le_of_lt hgt)]
      rw [List.find?_append]
      have hnone : cs.find? (fun p => p.value = pr.value) = none := by
        rw [List.find?_eq_none]
        intro x hx
        have hle : x.value ≤ m := omax_le _ _ h x.value (List.mem_map_of_mem _ hx)
        simp only [decide_eq_true_eq]
        intro hxe
        rw [hxe] at hle
        exact absurd hgt (not_lt.mpr hle)
      rw [hnone]
      simp only [Option.none_or]
      rw [if_pos (by rw [hcv]; exact hgt)]
      simp [List.find?]
    · simp only [max_eq_left (not_lt.mp hgt)]
      rw [List.find?_append, hc]
      rw [show (some c).or ([pr].find? (fun p => p.value = m)) = some c from rfl]
      rw [if_neg (by rw [hcv]; exact hgt)]

/-- The distinct PR types in order of first occurrence. -/
def firstTypes (prs : List PRTagged) : List String :=
  prs.foldl (fun acc p => if p.type ∈ acc then acc else acc ++ [p.type]) []

theorem firstTypes_concat (prs : List PRTagged) (pr : PRTagged) :
    firstTypes (prs ++ [pr]) =
      if pr.type ∈ firstTypes prs then firstTypes prs
      else firstTypes prs ++ [pr.type] := by
  unfold firstTypes
  rw [List.foldl_append]
  rfl

theorem upsertPR_types (m : List PRTagged) (pr : PRTagged) :
    (upsertPR m pr).map (fun p => p.type) =
      if pr.type ∈ m.map (fun p => p.type) then m.map (fun p => p.type)
      else m.map (fun p => p.type) ++ [pr.type] := by
  induction m with
  | nil => simp [upsertPR]
  | cons cur rest ih =>
      simp only [upsertPR]
      by_cases h : cur.type = pr.type
      · rw [if_pos h]
        have hmem : pr.type ∈ (cur :: rest).map (fun p => p.type) := by
          simp [h.symm]
        rw [if_pos hmem]
        split_ifs with hv <;> simp [h]
      · rw [if_neg h, List.map_cons, List.map_cons, ih]
        by_cases hmem : pr.type ∈ rest.map (fun p => p.type)
        · rw [if_pos hmem, if_pos (by simp [hmem])]
        · rw [if_neg hmem, if_neg (by
            simp only [List.map_cons, List.mem_cons]
            rintro (hh | hh)
            · exact h hh.symm
            · exact hmem hh)]
          simp

theorem upsertPR_find (m : List PRTagged) (pr : PRTagged) (ty : String) :
    (upsertPR m pr).find? (fun p => p.type = ty) =
      if pr.type = ty then
        (match m.find? (fun p => p.type = ty) with
         | none => some pr
         | some c => if pr.value > c.value then some pr else some c)
      else m.find? (fun p => p.type = ty) := by
  induction m with
  | nil =>
      simp only [upsertPR, List.find?]
      by_cases h : pr.type = ty
      · simp [h]
      · simp [h]
  | cons cur rest ih =>
      simp only [upsertPR]
      by_cases h : cur.type = pr.type
      · rw [if_pos h]
        by_cases hty : pr.type = ty
        · have hcur : cur.type = ty := h.trans hty
          rw [if_pos hty]
          split_ifs with hv
          · simp [List.find?_cons_of_pos, hty, hcur, hv]
          · simp [List.find?_cons_of_pos, hty, hcur, hv]
        · have hcur : ¬ cur.type = ty := fun hh => hty (h.symm.trans hh)
          rw [if_neg hty]
          split_ifs with hv
          · simp [List.find?_cons_of_neg, hty, hcur]
          · simp [List.find?_cons_of_neg, hty, hcur]
      · rw [if_neg h]
        by_cases hcur : cur.type = ty
        · by_cases hty : pr.type = ty
          · exact absurd (hcur.trans hty.symm) h
          · simp [List.find?_cons_of_pos, hcur, hty]
        · simp [List.find?_cons_of_neg, hcur, ih]

theorem dedupPRs_types (prs : List PRTagged) :
    (dedupPRs prs).map (fun p => p.type) = firstTypes prs := by
  induction prs using List.reverseRecOn with
  | nil => rfl
  | append_singleton l pr ih =>
      rw [dedupPRs, List.foldl_append,
        show List.foldl upsertPR [] l = dedupPRs l from rfl]
      simp only [List.foldl_cons, List.foldl_nil]
      rw [upsertPR_types, ih, firstTypes_concat]

theorem dedupPRs_find (prs : List PRTagged) (ty : String) :
    (dedupPRs prs).find? (fun p => p.type = ty) =
      bestPR (prs.filter (fun p => p.type = ty)) := by
  induction prs using List.reverseRecOn with
  | nil => rfl
  | append_singleton l pr ih =>
      rw [dedupPRs, List.foldl_append,
        show List.foldl upsertPR [] l = dedupPRs l from rfl]
      simp only [List.foldl_cons, List.foldl_nil]
      rw [upsertPR_find, List.filter_append]
      by_cases hty : pr.type = ty
      · rw [if_pos hty,
          show List.filter (fun p => decide (p.type = ty)) [pr] = [pr] from by simp [hty],
          bestPR_concat, ih]
        rcases bestPR (l.filter (fun p => decide (p.type = ty))) with _ | c
        · rfl
        · simp only []
          split_ifs <;> rfl
      · rw [if_neg hty,
          show List.filter (fun p => decide (p.type = ty)) [pr] = [] from by simp [hty],
          List.append_nil]
        exact ih

/-- C9: the deduplicated PR list has exactly one entry per distinct type
string, listed in order of each type's first occurrence; the entry kept for
a type is the one with the greatest numeric value seen for it, the
earliest-seen winning ties (the first list element attaining the maximum);
and the concrete 1RM-100/120/90 example collapses to the single value-120
entry. -/
theorem C9_pr_dedup_rules (prs : List PRTagged) :
    ((dedupPRs prs).map (fun p => p.type) = firstTypes prs ∧
     ∀ ty, (dedupPRs prs).find? (fun p => p.type = ty) =
       bestPR (prs.filter (fun p => p.type = ty))) ∧
    dedupPRs [⟨"1RM", 100, 0⟩, ⟨"1RM", 120, 1⟩, ⟨"1RM", 90, 2⟩] =
      [⟨"1RM", 120, 1⟩] :=
  ⟨⟨dedupPRs_types prs, fun ty => dedupPRs_find prs ty⟩, by decide⟩

/-! ## Order-independence of grouping and aggregation -/

theorem foldr_perm_lcomm {β : Type} (f : ℚ → β → β)
    (hcomm : ∀ a b c, f a (f b c) = f b (f a c))
    (l1 l2 : List ℚ) (hp : l1.Perm l2) (b : β) : l1.foldr f b = l2.foldr f b := by
  induction hp with
  | nil => rfl
  | cons x _ ih => simp [List.foldr_cons, ih]
  | swap x y l => simp [List.foldr_cons, hcomm]
  | trans _ _ ih1 ih2 => rw [ih1, ih2]

theorem foldr_max_perm (l1 l2 : List ℚ) (hp : l1.Perm l2) (b : ℚ) :
    l1.foldr max b = l2.foldr max b :=
  foldr_perm_lcomm max (fun a b c => max_left_comm a b c) l1 l2 hp b

theorem omax_perm (l1 l2 : List ℚ) (hp : l1.Perm l2) : omax l1 = omax l2 := by
  unfold omax
  apply foldr_perm_lcomm _ _ _ _ hp
  intro a b c
  rcases c with _ | c
  · simp [max_comm]
  · simp [max_left_comm]

theorem maxWeightSpec_perm (l1 l2 : List TSet) (hp : l1.Perm l2) :
    maxWeightSpec l1 = maxWeightSpec l2 := by
  unfold maxWeightSpec
  exact foldr_max_perm _ _ (hp.map (fun s => s.weight)) 0

theorem repsAtMaxSpec_perm (l1 l2 : List TSet) (hp : l1.Perm l2) :
    repsAtMaxSpec l1 = repsAtMaxSpec l2 := by
  unfold repsAtMaxSpec attainReps
  rw [maxWeightSpec_perm l1 l2 hp]
  rw [omax_perm _ _ ((hp.filter (fun s => s.weight = maxWeightSpec l2)).map (fun s => s.reps))]

theorem dayAgg_fold_perm (l1 l2 : List TSet) (hp : l1.Perm l2) :
    l1.foldl foldSet emptyAgg = l2.foldl foldSet emptyAgg := by
  rw [dayFold_spec, dayFold_spec]
  rw [maxWeightSpec_perm l1 l2 hp, repsAtMaxSpec_perm l1 l2 hp,
    (hp.map (fun s => s.reps)).sum_eq, (hp.map (fun s => s.weight * s.reps)).sum_eq,
    hp.length_eq, (hp.map (fun s => s.distance)).sum_eq,
    (hp.map (fun s => s.duration)).sum_eq,
    foldr_max_perm _ _ (hp.map (fun s => s.distance)) 0,
    foldr_max_perm _ _ (hp.map (fun s => s.duration)) 0]

theorem byDayOf_lookup_perm (sets1 sets2 : List TSet) (hp : sets1.Perm sets2) (d : ℤ) :
    lookupA (byDayOf sets1) d = lookupA (byDayOf sets2) d := by
  rw [lookupA_byDayOf, lookupA_byDayOf]
  have hpf := hp.filter (fun s => decide (s.day = d))
  by_cases h1 : sets1.filter (fun s => decide (s.day = d)) = []
  · have h2 : sets2.filter (fun s => decide (s.day = d)) = [] := by
      rw [h1] at hpf
      exact hpf.symm.eq_nil
    rw [if_pos h1, if_pos h2]
  · have h2 : ¬ sets2.filter (fun s => decide (s.day = d)) = [] := by
      intro hc
      rw [hc] at hpf
      exact h1 hpf.eq_nil
    rw [if_neg h1, if_neg h2, dayAgg_fold_perm _ _ hpf]


theorem mem_dedup_foldl (l : List String) (acc : List String) (k : String) :
    k ∈ l.foldl (fun acc0 t => if t ∈ acc0 then acc0 else acc0 ++ [t]) acc ↔
      k ∈ acc ∨ k ∈ l := by
  induction l generalizing acc with
  | nil => simp
  | cons x xs ih =>
      simp only [List.foldl_cons]
      rw [ih]
      by_cases hx : x ∈ acc
      · rw [if_pos hx]
        constructor
        · rintro (h | h)
          · exact Or.inl h
          · exact Or.inr (List.mem_cons_of_mem x h)
        · rintro (h | h)
          · exact Or.inl h
          · rcases List.mem_cons.mp h with he | hm
            · exact Or.inl (he ▸ hx)
            · exact Or.inr hm
      · rw [if_neg hx]
        simp only [List.mem_append, List.mem_singleton, List.mem_cons]
        tauto

theorem mem_keysInOrder_iff (dk : ℤ → ℤ) (locale : String) (ws : List Workout)
    (k : String) :
    k ∈ keysInOrder dk locale ws ↔
      k ∈ (occurrences dk locale ws).map (fun o => o.1) := by
  unfold keysInOrder
  rw [mem_dedup_foldl]
  simp

theorem entrySets_perm (dk : ℤ → ℤ) (locale : String) (ws1 ws2 : List Workout)
    (k : String) (hp : ws1.Perm ws2) :
    (entrySets dk locale ws1 k).Perm (entrySets dk locale ws2 k) := by
  unfold entrySets occurrences
  exact ((List.Perm.flatMap_right _ hp).filter _).flatMap_right _

/-- C10: the grouping-and-aggregation pass is order-independent: for any
permutation of the session list, the set of exercise keys is the same, and
for every key and day the day-key to DayAggregate mapping is identical. -/
theorem C10_order_independence (dk : ℤ → ℤ) (locale : String)
    (ws1 ws2 : List Workout) (hp : ws1.Perm ws2) :
    (∀ k, k ∈ keysInOrder dk locale ws1 ↔ k ∈ keysInOrder dk locale ws2) ∧
    (∀ k d, lookupA (byDayOf (entrySets dk locale ws1 k)) d =
            lookupA (byDayOf (entrySets dk locale ws2 k)) d) := by
  constructor
  · intro k
    rw [mem_keysInOrder_iff, mem_keysInOrder_iff]
    unfold occurrences
    exact ((List.Perm.flatMap_right _ hp).map _).mem_iff
  · intro k d
    exact byDayOf_lookup_perm _ _ (entrySets_perm dk locale ws1 ws2 k hp) d


/-- Two concrete sessions for the C10 witness. -/
def wA : Workout :=
  ⟨86400, [{ title := "Bench",
             sets := [{ weight := 100, reps := 5, distance := 0, duration := 0 }] }]⟩

/-- The second concrete session for the C10 witness, on a later day. -/
def wB : Workout :=
  ⟨200000, [{ title := "Bench!",
              sets := [{ weight := 80, reps := 8, distance := 0, duration := 0 }] }]⟩

/-- C10 witness: swapping the two sessions leaves the day-1 aggregate of the
merged "bench" exercise unchanged. -/
theorem C10_witness :
    lookupA (byDayOf (entrySets dkStd "en" [wA, wB] "bench")) 1 =
      lookupA (byDayOf (entrySets dkStd "en" [wB, wA] "bench")) 1 :=
  (C10_order_independence dkStd "en" [wA, wB] [wB, wA] (by decide)).2 "bench" 1

end HevyInsights
